import Mathlib

/-!
# Verification of the table-repository data layer

A shallow embedding of the repository's table abstraction family: the base
table repository (CRUD, soft delete, priority reordering), the cache table
(TTL filtering, save), the key-value repository and the JSON content
repository.  Tables are modelled as lists of rows; SQL statements become
functions on those lists; machine-generated ids are explicit parameters
constrained by the invariant that the store assigns them monotonically.
-/

namespace NextCrud

/-- One row of a base table (`AbstractTable`).  `deletedAt` models the
nullable `deleted_at` column (`none` = active); `priority` models the
nullable integer `priority` column; `payload` stands for the table-specific
declared columns. -/
structure Row (α : Type) where
  id : Nat
  priority : Option Int
  deletedAt : Option Int
  payload : α
deriving DecidableEq, Repr

/-- Repository configuration flags (`TableConfig` in the source). -/
structure TableConfig where
  softDelete : Bool
  hasPriority : Bool
deriving DecidableEq, Repr

/-- Error kinds raised by the table operations. -/
inductive TableError where
  | featureDisabled
  | invalidArgument
  | notFound
  | unsupportedType
deriving DecidableEq, Repr

/-- JS `Number(x)` applied to a nullable integer column: `Number(null) = 0`. -/
def numberOfOpt : Option Int → Int
  | none => 0
  | some p => p

/-- A row is active when its `deleted_at` column is NULL. -/
def Row.active {α : Type} (r : Row α) : Bool := r.deletedAt = none

/-- The integer priority of a row (defined for rows whose priority is set). -/
def priVal {α : Type} (r : Row α) : Int := r.priority.getD 0

/-- The downward shift applied to one priority value by
`updatePriority` when `current < target`: priorities in `(current, target]`
decrease by one. -/
def phiDown (c target p : Int) : Int :=
  if c < p ∧ p ≤ target then p - 1 else p

/-- The upward shift applied to one priority value by `updatePriority` when
`current > target`: priorities in `[target, current)` increase by one. -/
def phiUp (c target p : Int) : Int :=
  if target ≤ p ∧ p < c then p + 1 else p

/-- Effect of the downward-shift UPDATE on one row: SQL comparisons against a
NULL priority match nothing, so NULL-priority rows are untouched. -/
def shiftRowDown {α : Type} (c target : Int) (r : Row α) : Row α :=
  match r.priority with
  | none => r
  | some p => { r with priority := some (phiDown c target p) }

/-- Effect of the upward-shift UPDATE on one row. -/
def shiftRowUp {α : Type} (c target : Int) (r : Row α) : Row α :=
  match r.priority with
  | none => r
  | some p => { r with priority := some (phiUp c target p) }

/-- `UPDATE table SET priority = target WHERE id = id`. -/
def setRowPriority {α : Type} (id : Nat) (target : Int) (t : List (Row α)) :
    List (Row α) :=
  t.map fun r => if r.id = id then { r with priority := some target } else r

/-- `AbstractTable.updatePriority` (part_017): feature check, id validation,
target validation, then inside one transaction read the current priority,
shift the rows between the two positions and stamp the target priority. -/
def updatePriority {α : Type} (cfg : TableConfig) (t : List (Row α))
    (id : Nat) (target : Int) : Except TableError (List (Row α)) :=
  if ¬ cfg.hasPriority then .error .featureDisabled
  else if id = 0 then .error .invalidArgument
  else if target < 0 then .error .invalidArgument
  else
    match t.find? (fun r => r.id = id) with
    | none => .error .notFound
    | some cur =>
      let currentPriority := numberOfOpt cur.priority
      if currentPriority = target then .ok t
      else if currentPriority < target then
        .ok (setRowPriority id target (t.map (shiftRowDown currentPriority target)))
      else
        .ok (setRowPriority id target (t.map (shiftRowUp currentPriority target)))

/-- Modelled from the spec: "read current priority of `id`; if equal to
target, return the row unchanged; if current < target, shift every row with
priority in `(current, target]` down by one; if current > target, shift every
row with priority in `[target, current)` up by one; finally set row `id`'s
priority to `targetPriority`".  `none` when the row is missing or carries no
integer priority (the spec presupposes one). -/
def updatePrioritySpec {α : Type} (t : List (Row α)) (id : Nat) (target : Int) :
    Option (List (Row α)) :=
  match t.find? (fun r => r.id = id) with
  | none => none
  | some cur =>
    match cur.priority with
    | none => none
    | some c =>
      if c = target then some t
      else if c < target then
        some (setRowPriority id target
          (t.map fun r =>
            match r.priority with
            | none => r
            | some p =>
              if c < p ∧ p ≤ target then { r with priority := some (p - 1) } else r))
      else
        some (setRowPriority id target
          (t.map fun r =>
            match r.priority with
            | none => r
            | some p =>
              if target ≤ p ∧ p < c then { r with priority := some (p + 1) } else r))

/-- `create`'s test for a caller-supplied priority: defined, non-null,
an integer and strictly positive. -/
def validSuppliedPriority (sp : Option Int) : Bool :=
  match sp with
  | some p => decide (0 < p)
  | none => false

/-- `AbstractTable.create` (part_017): normalize the supplied priority (drop
it unless the priority feature is on and it is a valid positive integer),
insert the row with the store-generated `newId`, and — when no valid priority
was supplied — stamp `priority = id` on every row whose priority is NULL,
inside the same transaction. -/
def create {α : Type} (cfg : TableConfig) (newId : Nat) (t : List (Row α))
    (suppliedPriority : Option Int) (payload : α) : List (Row α) :=
  let provided := cfg.hasPriority && validSuppliedPriority suppliedPriority
  let pri : Option Int :=
    if cfg.hasPriority then (if provided then suppliedPriority else none) else none
  let t1 := t ++ [⟨newId, pri, none, payload⟩]
  if cfg.hasPriority && !provided then
    t1.map fun r =>
      if r.priority = none then { r with priority := some (r.id : Int) } else r
  else t1

/-- Pointwise form of the whole move: the moved row receives the target
priority, every other row is shifted. -/
def moveRowDown {α : Type} (id : Nat) (c target : Int) (r : Row α) : Row α :=
  if r.id = id then { r with priority := some target } else shiftRowDown c target r

/-- Pointwise form of the upward move. -/
def moveRowUp {α : Type} (id : Nat) (c target : Int) (r : Row α) : Row α :=
  if r.id = id then { r with priority := some target } else shiftRowUp c target r

/-- `AbstractTable.getById` (part_017): validates the id, then selects the
row by id, excluding soft-deleted rows unless `includeDeleted` is set (the
filter only exists when the soft-delete feature is configured). -/
def getById {α : Type} (cfg : TableConfig) (t : List (Row α)) (id : Nat)
    (includeDeleted : Bool) : Except TableError (Option (Row α)) :=
  if id = 0 then .error .invalidArgument
  else if cfg.softDelete && !includeDeleted then
    .ok (t.find? fun r => decide (r.id = id) && r.active)
  else
    .ok (t.find? fun r => decide (r.id = id))

/-- SQL `ORDER BY` with a Boolean comparator, modelled as a stable
(insertion) sort. -/
def sortBy {β : Type} (le : β → β → Bool) (l : List β) : List β :=
  List.insertionSort (fun a b => le a b = true) l

/-- `AbstractTable.list` (part_017): excludes soft-deleted rows unless
`includeDeleted`, optionally orders by one column (abstracted as a
comparator), then applies offset and limit. -/
def list {α : Type} (cfg : TableConfig) (t : List (Row α))
    (includeDeleted : Bool) (limit offset : Nat)
    (orderBy : Option (Row α → Row α → Bool)) : List (Row α) :=
  let q := if cfg.softDelete && !includeDeleted then t.filter (fun r => r.active) else t
  let q2 := match orderBy with
    | some le => sortBy le q
    | none => q
  (q2.drop offset).take limit

/-- `AbstractTable.update` (part_017): validates the id and applies the SET
clause — abstracted as the row transformer `upd` — to every row matching the
id, with NO `deleted_at` filter; returns the updated row (absent when no row
matched) and the new table state. -/
def update {α : Type} (t : List (Row α)) (id : Nat) (upd : Row α → Row α) :
    Except TableError (Option (Row α) × List (Row α)) :=
  if id = 0 then .error .invalidArgument
  else
    let t2 := t.map fun r => if r.id = id then upd r else r
    match t.find? (fun r => r.id = id) with
    | none => .ok (none, t2)
    | some r => .ok (some (upd r), t2)

/-- A JavaScript value as handled by the JSON repositories.  `undef` is
JavaScript `undefined`, which is not a JSON value: `JSON.stringify` drops
`undefined`-valued object fields and turns `undefined` array elements into
`null`. -/
inductive JSVal where
  | undef : JSVal
  | null : JSVal
  | bool : Bool → JSVal
  | num : Int → JSVal
  | str : String → JSVal
  | arr : List JSVal → JSVal
  | obj : List (String × JSVal) → JSVal
deriving Repr

mutual
/-- The semantic effect of a `JSON.stringify` / `JSON.parse` round trip on a
JavaScript value: `undefined` object fields dropped, `undefined` array
elements become `null`, everything else preserved.  This also stands for the
`toJsonContent`/`fromJsonContent` helpers imported from `./utilities`, whose
bodies are not under src/ — modelled from the spec: "undefined-valued object
fields are dropped during JSON encoding (matching a stringify semantics) —
arrays with undefined elements have those elements become null". -/
def normVal : JSVal → JSVal
  | .undef => .null
  | .null => .null
  | .bool b => .bool b
  | .num n => .num n
  | .str s => .str s
  | .arr xs => .arr (normArr xs)
  | .obj fs => .obj (normFields fs)

/-- `normVal` on array elements (`undefined` becomes `null`). -/
def normArr : List JSVal → List JSVal
  | [] => []
  | x :: xs => normVal x :: normArr xs

/-- `normVal` on object fields (`undefined`-valued fields are dropped). -/
def normFields : List (String × JSVal) → List (String × JSVal)
  | [] => []
  | (_, .undef) :: fs => normFields fs
  | (k, v) :: fs => (k, normVal v) :: normFields fs
end

/-- Field lookup on a JavaScript object represented as an association list. -/
def objGet (fs : List (String × JSVal)) (k : String) : Option JSVal :=
  (fs.find? fun p => p.1 == k).map Prod.snd

/-- JavaScript property assignment `{...o, k: v}` (the new binding wins). -/
def objSet (fs : List (String × JSVal)) (k : String) (v : JSVal) :
    List (String × JSVal) :=
  fs.filter (fun p => p.1 != k) ++ [(k, v)]

/-- `delete rest.id; delete rest.priority; delete rest.type` performed by
`AbstractJSONTable.toJsonContent` before encoding. -/
def stripMeta (fs : List (String × JSVal)) : List (String × JSVal) :=
  fs.filter fun p => (p.1 != "id") && (p.1 != "priority") && (p.1 != "type")

/-- JavaScript object spread `{...e, ...p}`: top-level keys of `p` replace
those of `e` wholesale (shallow merge). -/
def shallowMerge (e p : List (String × JSVal)) : List (String × JSVal) :=
  e.filter (fun q => !(p.any fun r => r.1 == q.1)) ++ p

/-- The result of looking up an object field after stringify normalization:
an `undefined` field reads as absent, any other as its normalized value. -/
def dropUndef (v : Option JSVal) : Option JSVal :=
  match v with
  | some .undef => none
  | some w => some (normVal w)
  | none => none

/-- The declared columns of `AbstractJSONTable`: the `type` tag and the JSON
`content` blob. -/
structure JPayload where
  ty : String
  content : JSVal
deriving Repr

/-- The dialect JSON write codec (SQLite: `JSON.stringify`; Postgres: driver
serialization into jsonb), modelled semantically: what is stored and later
decoded is the stringify normalization of the written value. -/
def encodeJson (v : JSVal) : JSVal := normVal v

/-- `AbstractJSONTable.decodeJson` output as spread into `fromRow`: the
fields of the stored object, `{}` for a null or non-object value. -/
def decodeJsonStored (v : JSVal) : List (String × JSVal) :=
  match v with
  | .obj fs => fs
  | _ => []

/-- `AbstractJSONTable.fromRow`: spread the decoded JSON and reassemble
`id`, `priority` and `type` from their dedicated columns. -/
def fromRow (r : Row JPayload) : List (String × JSVal) :=
  objSet (objSet (objSet (decodeJsonStored r.payload.content)
      "id" (.num (r.id : Int)))
      "priority" (match r.priority with | some p => .num p | none => .null))
      "type" (.str r.payload.ty)

/-- JavaScript `x !== undefined` on an optional object field (absent fields
destructure to `undefined`). -/
def definedField (v : Option JSVal) : Option JSVal :=
  match v with
  | some .undef => none
  | some v => some v
  | none => none

/-- `AbstractJSONTable.createWithContent`: require a truthy string `type`,
validate it against the whitelist (empty whitelist = unrestricted), strip
`id`/`priority`/`type` out of the JSON blob, and insert through the base
`create` (passing the content's own `priority` along when it is a number). -/
def createWithContent (cfg : TableConfig) (supportedTypes : List String)
    (newId : Nat) (t : List (Row JPayload)) (content : List (String × JSVal)) :
    Except TableError (List (Row JPayload)) :=
  match objGet content "type" with
  | some (.str ty) =>
    if ty = "" then .error .invalidArgument
    else if supportedTypes ≠ [] ∧ ty ∉ supportedTypes then .error .unsupportedType
    else
      let sp : Option Int :=
        match objGet content "priority" with
        | some (.num p) => some p
        | _ => none
      .ok (create cfg newId t sp ⟨ty, encodeJson (.obj (stripMeta content))⟩)
  | _ => .error .invalidArgument

/-- `AbstractJSONTable.getByIdWithContent`: base `getById`, then `fromRow`. -/
def getByIdWithContent (cfg : TableConfig) (t : List (Row JPayload)) (id : Nat)
    (includeDeleted : Bool) :
    Except TableError (Option (List (String × JSVal))) :=
  match getById cfg t id includeDeleted with
  | .error e => .error e
  | .ok none => .ok none
  | .ok (some r) => .ok (some (fromRow r))

/-- `AbstractJSONTable.updateWithContent`: destructure `type` and `priority`
out of the patch, re-validate a present `type` against the whitelist, and —
when the remaining JSON patch is non-empty — read the current content with
`includeDeleted`, shallow-merge the patch onto it and re-encode.  (The
`type`/`priority` patch fields are typed `string`/`number` upstream; values
outside those types cannot occur and are mapped to `invalidArgument` /
a NULL priority here.) -/
def updateWithContent (cfg : TableConfig) (supportedTypes : List String)
    (t : List (Row JPayload)) (id : Nat) (patch : List (String × JSVal)) :
    Except TableError (Option (List (String × JSVal)) × List (Row JPayload)) :=
  let jsonPatch := patch.filter fun p => (p.1 != "type") && (p.1 != "priority")
  let tyStep : Except TableError (Option String) :=
    match definedField (objGet patch "type") with
    | none => .ok none
    | some (.str s) =>
      if supportedTypes ≠ [] ∧ s ∉ supportedTypes then .error .unsupportedType
      else .ok (some s)
    | some _ => .error .invalidArgument
  match tyStep with
  | .error e => .error e
  | .ok newTy =>
    let newPri : Option (Option Int) :=
      match definedField (objGet patch "priority") with
      | none => none
      | some (.num p) => some (some p)
      | some _ => some none
    let contentStep : Option JSVal :=
      if jsonPatch.isEmpty then none
      else
        let existing :=
          match getById cfg t id true with
          | .ok (some r) => decodeJsonStored r.payload.content
          | _ => []
        some (encodeJson (.obj (shallowMerge existing jsonPatch)))
    match update t id (fun r =>
      let r1 := match newTy with
        | some s => { r with payload := { r.payload with ty := s } }
        | none => r
      let r2 := match newPri with
        | some pv => { r1 with priority := pv }
        | none => r1
      match contentStep with
      | some cv => { r2 with payload := { r2.payload with content := cv } }
      | none => r2) with
    | .error e => .error e
    | .ok (none, t2) => .ok (none, t2)
    | .ok (some r, t2) => .ok (some (fromRow r), t2)

/-- One row of a cache table (`AbstractCacheTable`; its default
`extraColumns()` is empty).  `expired` models the nullable boolean/integer
column; `createdAt` is the row timestamp in seconds. -/
structure CacheRow where
  id : Nat
  key : String
  ty : String
  content : JSVal
  expired : Option Bool
  createdAt : Int
deriving Repr

/-- An equality filter over the mandatory cache columns. -/
structure CacheSelect where
  key : Option String
  ty : Option String
deriving Repr

/-- The named TTL sentinels of the `TTL` enum. -/
def TTL_NOT_EXPIRED : Int := -1

/-- `TTL.EXPIRED`. -/
def TTL_EXPIRED : Int := -2

/-- `TTL.UNLIMITED`. -/
def TTL_UNLIMITED : Int := 0

/-- `TTL.ONE_HOUR`. -/
def TTL_ONE_HOUR : Int := 3600

/-- `ensureSelectNotEmpty`: at least one filter field is not undefined. -/
def selectNonEmpty (sel : CacheSelect) : Bool :=
  sel.key.isSome || sel.ty.isSome

/-- `applyFilters`: conjunction of the equality filters that are present. -/
def matchesSelect (sel : CacheSelect) (r : CacheRow) : Bool :=
  (match sel.key with | some k => r.key == k | none => true) &&
  (match sel.ty with | some ty => r.ty == ty | none => true)

/-- `notExpiredPredicate` (`expired IS NOT TRUE` resp.
`COALESCE(expired, 0) = 0`): true unless the flag is set. -/
def notExpiredRow (r : CacheRow) : Bool := r.expired != some true

/-- `expiredPredicate` (`expired IS TRUE` resp. `expired = 1`). -/
def expiredRow (r : CacheRow) : Bool := r.expired == some true

/-- `applyTtlFilters`: the switch over the TTL value — `NOT_EXPIRED`,
`EXPIRED`, `UNLIMITED`, and the default branch
`created_at >= now() - ttl seconds AND not expired`. -/
def ttlFilter (now ttl : Int) (r : CacheRow) : Bool :=
  if ttl = TTL_NOT_EXPIRED then notExpiredRow r
  else if ttl = TTL_EXPIRED then expiredRow r
  else if ttl = TTL_UNLIMITED then true
  else decide (now - ttl ≤ r.createdAt) && notExpiredRow r

/-- Modelled from the spec's TTL policy table: "> 0: only rows created within
the last N seconds AND not expired; NOT_EXPIRED (-1): all not-expired rows,
regardless of age; EXPIRED (-2): only rows marked expired; UNLIMITED (0): all
rows regardless of age or expired flag". -/
def ttlPolicySpec (now ttl : Int) (r : CacheRow) : Bool :=
  if 0 < ttl then decide (now - ttl ≤ r.createdAt) && !(expiredRow r)
  else if ttl = -1 then !(expiredRow r)
  else if ttl = -2 then expiredRow r
  else true

/-- `ORDER BY created_at DESC, id DESC` as a comparator (newest first). -/
def cacheNewestFirst (r s : CacheRow) : Bool :=
  decide (s.createdAt < r.createdAt) ||
    (decide (s.createdAt = r.createdAt) && decide (s.id ≤ r.id))

/-- `AbstractCacheTable.getAll`: equality filters plus the TTL filter
(defaulting to `NOT_EXPIRED`), newest first.  Entries are returned as the
rows themselves: the decoded content of a stored row is the stored value. -/
def getAll (now : Int) (t : List CacheRow) (sel : CacheSelect)
    (ttl : Option Int) : Except TableError (List CacheRow) :=
  if !(selectNonEmpty sel) then .error .invalidArgument
  else
    .ok (sortBy cacheNewestFirst (t.filter fun r =>
      matchesSelect sel r && ttlFilter now (ttl.getD TTL_NOT_EXPIRED) r))

/-- `AbstractCacheTable.getLast`: the newest matching row's content, `null`
when nothing matches. -/
def getLast (now : Int) (t : List CacheRow) (sel : CacheSelect)
    (ttl : Option Int) : Except TableError (Option JSVal) :=
  if !(selectNonEmpty sel) then .error .invalidArgument
  else
    .ok (((sortBy cacheNewestFirst (t.filter fun r =>
      matchesSelect sel r &&
        ttlFilter now (ttl.getD TTL_NOT_EXPIRED) r)).head?).map
          CacheRow.content)

/-- `AbstractCacheTable.isCached`: existence under the same filters. -/
def isCached (now : Int) (t : List CacheRow) (sel : CacheSelect)
    (ttl : Option Int) : Except TableError Bool :=
  if !(selectNonEmpty sel) then .error .invalidArgument
  else
    .ok (t.any fun r =>
      matchesSelect sel r && ttlFilter now (ttl.getD TTL_NOT_EXPIRED) r)

/-- JavaScript `content === undefined || content === null`. -/
def nullish (v : JSVal) : Bool :=
  match v with
  | .undef => true
  | .null => true
  | _ => false

/-- `AbstractCacheTable.save`: reject null/undefined content without touching
the store; otherwise insert a fresh row stamped `expired = false` at the
current time, first requesting the generated id back (RETURNING) and, on any
insertion error, retrying once without RETURNING; a second failure is caught
and turned into a `false` return.  The two insertion outcomes are abstracted
by the `fail1`/`fail2` flags; the function is total — it never throws. -/
def save (t : List CacheRow) (newId : Nat) (key ty : String) (content : JSVal)
    (now : Int) (fail1 fail2 : Bool) : Bool × List CacheRow :=
  if nullish content then (false, t)
  else
    let row : CacheRow := ⟨newId, key, ty, encodeJson content, some false, now⟩
    if fail1 = false then (true, t ++ [row])
    else if fail2 = false then (true, t ++ [row])
    else (false, t)

/-- One row of a key-value table (`AbstractKeyValueRepository`); `none` in
`value` models SQL NULL. -/
structure KVRow where
  key : String
  value : Option JSVal
deriving Repr

/-- `encodeJsonOrNull` of the key-value repository: the empty string, `null`
and `undefined` are stored as SQL NULL; anything else is JSON-encoded. -/
def kvEncodeOrNull (v : JSVal) : Option JSVal :=
  match v with
  | .str "" => none
  | .null => none
  | .undef => none
  | v => some (normVal v)

/-- The upsert at the heart of `setValue`: UPDATE by key, and INSERT when
zero rows were affected. -/
def kvUpsert (t : List KVRow) (key : String) (dbJson : Option JSVal) :
    List KVRow :=
  if t.any (fun r => r.key == key) then
    t.map fun r => if r.key == key then ⟨r.key, dbJson⟩ else r
  else
    t ++ [⟨key, dbJson⟩]

/-- `AbstractKeyValueRepository.setValue`: throws on `undefined` before any
write; `null` and the empty string are an explicit clear; otherwise upserts
the encoded value. -/
def setValue (t : List KVRow) (key : String) (v : JSVal) :
    Except TableError (List KVRow) :=
  match v with
  | .undef => .error .invalidArgument
  | v => .ok (kvUpsert t key (kvEncodeOrNull v))

/-- `AbstractKeyValueRepository.getValue`: `none` when the key was never set
(JS `undefined`), `some none` when it was explicitly cleared (SQL NULL
decodes to `null`), `some (some v)` for the decoded stored value. -/
def getValue (t : List KVRow) (key : String) : Option (Option JSVal) :=
  match t.find? (fun r => r.key == key) with
  | none => none
  | some r => some r.value

/-- No two active rows (at distinct positions) share a priority. -/
def ActiveDistinct {α : Type} (t : List (Row α)) : Prop :=
  ∀ i j : Fin t.length, i ≠ j →
    (t.get i).active = true → (t.get j).active = true →
    (t.get i).priority ≠ (t.get j).priority

instance {α : Type} [DecidableEq α] (t : List (Row α)) :
    Decidable (ActiveDistinct t) := by
  unfold ActiveDistinct; infer_instance

section PhiLemmas

lemma phiDown_strictMono (c target p q : Int)
    (hp : p ≠ c) (hq : q ≠ c) : p < q ↔ phiDown c target p < phiDown c target q := by
  unfold phiDown
  split_ifs <;> omega

lemma phiDown_ne_target (c target p : Int) (h : c < target) :
    phiDown c target p ≠ target := by
  unfold phiDown
  split_ifs <;> omega

lemma phiDown_inj (c target p q : Int)
    (hp : p ≠ c) (hq : q ≠ c) (heq : phiDown c target p = phiDown c target q) :
    p = q := by
  unfold phiDown at heq
  split_ifs at heq <;> omega

lemma phiUp_strictMono (c target p q : Int)
    (_hp : p ≠ c) (hq : q ≠ c) : p < q ↔ phiUp c target p < phiUp c target q := by
  unfold phiUp
  split_ifs <;> omega

lemma phiUp_ne_target (c target p : Int) (h : target < c) :
    phiUp c target p ≠ target := by
  unfold phiUp
  split_ifs <;> omega

lemma phiUp_inj (c target p q : Int)
    (hp : p ≠ c) (hq : q ≠ c) (heq : phiUp c target p = phiUp c target q) :
    p = q := by
  unfold phiUp at heq
  split_ifs at heq <;> omega

end PhiLemmas

example :
    updatePriority ⟨false, true⟩
      [⟨1, some 1, none, ()⟩, ⟨2, some 2, none, ()⟩, ⟨3, some 3, none, ()⟩] 1 3 =
    .ok [⟨1, some 3, none, ()⟩, ⟨2, some 1, none, ()⟩, ⟨3, some 2, none, ()⟩] := by
  rfl

section RowLemmas

variable {α : Type}

lemma shiftRowDown_id (c target : Int) (r : Row α) :
    (shiftRowDown c target r).id = r.id := by
  cases hp : r.priority <;> simp [shiftRowDown, hp]

lemma shiftRowDown_deletedAt (c target : Int) (r : Row α) :
    (shiftRowDown c target r).deletedAt = r.deletedAt := by
  cases hp : r.priority <;> simp [shiftRowDown, hp]

lemma shiftRowDown_payload (c target : Int) (r : Row α) :
    (shiftRowDown c target r).payload = r.payload := by
  cases hp : r.priority <;> simp [shiftRowDown, hp]

lemma shiftRowDown_priority (c target : Int) (r : Row α) :
    (shiftRowDown c target r).priority = r.priority.map (phiDown c target) := by
  cases hp : r.priority <;> simp [shiftRowDown, hp]

lemma shiftRowDown_with_priority (c target : Int) (tp : Option Int) (r : Row α) :
    { shiftRowDown c target r with priority := tp } = { r with priority := tp } := by
  rcases r with ⟨i, pri, d, pl⟩
  cases pri <;> rfl

lemma shiftRowUp_id (c target : Int) (r : Row α) :
    (shiftRowUp c target r).id = r.id := by
  cases hp : r.priority <;> simp [shiftRowUp, hp]

lemma shiftRowUp_deletedAt (c target : Int) (r : Row α) :
    (shiftRowUp c target r).deletedAt = r.deletedAt := by
  cases hp : r.priority <;> simp [shiftRowUp, hp]

lemma shiftRowUp_payload (c target : Int) (r : Row α) :
    (shiftRowUp c target r).payload = r.payload := by
  cases hp : r.priority <;> simp [shiftRowUp, hp]

lemma shiftRowUp_priority (c target : Int) (r : Row α) :
    (shiftRowUp c target r).priority = r.priority.map (phiUp c target) := by
  cases hp : r.priority <;> simp [shiftRowUp, hp]

lemma shiftRowUp_with_priority (c target : Int) (tp : Option Int) (r : Row α) :
    { shiftRowUp c target r with priority := tp } = { r with priority := tp } := by
  rcases r with ⟨i, pri, d, pl⟩
  cases pri <;> rfl

lemma setRowPriority_map_shiftDown (id : Nat) (c target : Int) (t : List (Row α)) :
    setRowPriority id target (t.map (shiftRowDown c target)) =
      t.map (moveRowDown id c target) := by
  unfold setRowPriority
  rw [List.map_map]
  refine List.map_congr_left fun r _ => ?_
  show (if (shiftRowDown c target r).id = id
        then { shiftRowDown c target r with priority := some target }
        else shiftRowDown c target r) = moveRowDown id c target r
  rw [shiftRowDown_id]
  unfold moveRowDown
  by_cases h : r.id = id
  · simp [h, shiftRowDown_with_priority]
  · simp [h]

lemma setRowPriority_map_shiftUp (id : Nat) (c target : Int) (t : List (Row α)) :
    setRowPriority id target (t.map (shiftRowUp c target)) =
      t.map (moveRowUp id c target) := by
  unfold setRowPriority
  rw [List.map_map]
  refine List.map_congr_left fun r _ => ?_
  show (if (shiftRowUp c target r).id = id
        then { shiftRowUp c target r with priority := some target }
        else shiftRowUp c target r) = moveRowUp id c target r
  rw [shiftRowUp_id]
  unfold moveRowUp
  by_cases h : r.id = id
  · simp [h, shiftRowUp_with_priority]
  · simp [h]

/-- Primary-key uniqueness: distinct rows of the table have distinct ids, so
equal ids identify equal rows. -/
lemma id_inj {t : List (Row α)} (hids : (t.map Row.id).Nodup) :
    ∀ r ∈ t, ∀ s ∈ t, r.id = s.id → r = s := fun _ hr _ hs heq =>
  List.inj_on_of_nodup_map hids hr hs heq

lemma find?_id_eq {t : List (Row α)} {id : Nat} (hids : (t.map Row.id).Nodup)
    {r0 : Row α} (hr0 : r0 ∈ t) (hr0id : r0.id = id) :
    t.find? (fun r => r.id = id) = some r0 := by
  have hsome : (t.find? (fun r => r.id = id)).isSome := by
    rw [List.find?_isSome]
    exact ⟨r0, hr0, by simp [hr0id]⟩
  obtain ⟨x, hx⟩ := Option.isSome_iff_exists.mp hsome
  have hxmem : x ∈ t := List.mem_of_find?_eq_some hx
  have hxp : x.id = id := by simpa using List.find?_some hx
  rw [hx, id_inj hids x hxmem r0 hr0 (by rw [hxp, hr0id])]

/-- The positional no-shared-priority property, read off pairs of members. -/
lemma activeDistinct_mem {t : List (Row α)} (h : ActiveDistinct t) :
    ∀ r ∈ t, ∀ s ∈ t, r ≠ s → r.active = true → s.active = true →
      r.priority ≠ s.priority := by
  intro r hr s hs hne ha hb
  obtain ⟨i, hi⟩ := List.get_of_mem hr
  obtain ⟨j, hj⟩ := List.get_of_mem hs
  have hij : i ≠ j := by
    rintro rfl
    exact hne (hi ▸ hj ▸ rfl)
  have := h i j hij (by rw [hi]; exact ha) (by rw [hj]; exact hb)
  rwa [hi, hj] at this

/-- Lifting pairwise active-priority distinctness through a pointwise map. -/
lemma activeDistinct_map {t : List (Row α)} {f : Row α → Row α}
    (hids : (t.map Row.id).Nodup)
    (hpres : ∀ r : Row α, (f r).deletedAt = r.deletedAt)
    (h : ∀ r ∈ t, ∀ s ∈ t, r ≠ s → r.active = true → s.active = true →
      (f r).priority ≠ (f s).priority) :
    ActiveDistinct (t.map f) := by
  have hnt : t.Nodup := hids.of_map
  intro i j hij ha hb
  have hi : (i : Nat) < t.length := by
    have := i.2; simpa using this
  have hj : (j : Nat) < t.length := by
    have := j.2; simpa using this
  have hgi : (t.map f).get i = f (t.get ⟨i, hi⟩) := by
    simp [List.get_eq_getElem]
  have hgj : (t.map f).get j = f (t.get ⟨j, hj⟩) := by
    simp [List.get_eq_getElem]
  have hne : t.get ⟨i, hi⟩ ≠ t.get ⟨j, hj⟩ := by
    intro heq
    have hfin : (⟨i, hi⟩ : Fin t.length) = ⟨j, hj⟩ := hnt.get_inj_iff.mp heq
    apply hij
    have : (i : Nat) = (j : Nat) := by simpa using congrArg Fin.val hfin
    exact Fin.ext this
  have ha' : (t.get ⟨i, hi⟩).active = true := by
    have := ha; rw [hgi] at this
    unfold Row.active at this ⊢
    rwa [hpres] at this
  have hb' : (t.get ⟨j, hj⟩).active = true := by
    have := hb; rw [hgj] at this
    unfold Row.active at this ⊢
    rwa [hpres] at this
  rw [hgi, hgj]
  exact h _ (List.get_mem t _ _) _ (List.get_mem t _ _) hne ha' hb'

end RowLemmas

section MoveLemmas

variable {α : Type}

/-- After a move whose shift acts as `φ` on every row other than the moved
one, no two active rows share a priority. -/
lemma move_distinct {t : List (Row α)} {id : Nat} {c target : Int}
    {f : Row α → Row α} {φ : Int → Int}
    (hφinj : ∀ p q : Int, p ≠ c → q ≠ c → φ p = φ q → p = q)
    (hφtarget : ∀ p : Int, p ≠ c → φ p ≠ target)
    (hids : (t.map Row.id).Nodup)
    (hsome : ∀ r ∈ t, r.active = true → r.priority.isSome = true)
    (hdist : ∀ r ∈ t, ∀ s ∈ t, r ≠ s → r.active = true → s.active = true →
      r.priority ≠ s.priority)
    (r0 : Row α) (hr0 : r0 ∈ t) (hr0id : r0.id = id) (hr0act : r0.active = true)
    (hr0pri : r0.priority = some c)
    (hfmov : ∀ r : Row α, r.id = id → (f r).priority = some target)
    (hfoth : ∀ r : Row α, r.id ≠ id → (f r).priority = r.priority.map φ) :
    ∀ r ∈ t, ∀ s ∈ t, r ≠ s → r.active = true → s.active = true →
      (f r).priority ≠ (f s).priority := by
  have hother : ∀ s ∈ t, s.id ≠ id → s.active = true →
      ∃ q : Int, s.priority = some q ∧ q ≠ c := by
    intro s hs hsid hsa
    obtain ⟨q, hq⟩ := Option.isSome_iff_exists.mp (hsome s hs hsa)
    refine ⟨q, hq, fun hqc => ?_⟩
    have hsr0 : s ≠ r0 := fun h => hsid (h ▸ hr0id)
    exact hdist s hs r0 hr0 hsr0 hsa hr0act (by rw [hq, hr0pri, hqc])
  intro r hr s hs hrs hra hsa
  by_cases hrid : r.id = id
  · by_cases hsid : s.id = id
    · exact absurd (id_inj hids r hr s hs (by rw [hrid, hsid])) hrs
    · obtain ⟨q, hq, hqc⟩ := hother s hs hsid hsa
      rw [hfmov r hrid, hfoth s hsid, hq]
      simp only [Option.map_some']
      exact fun hcon => hφtarget q hqc (Option.some.inj hcon.symm)
  · by_cases hsid : s.id = id
    · obtain ⟨p, hp, hpc⟩ := hother r hr hrid hra
      rw [hfmov s hsid, hfoth r hrid, hp]
      simp only [Option.map_some']
      exact fun hcon => hφtarget p hpc (Option.some.inj hcon)
    · obtain ⟨p, hp, hpc⟩ := hother r hr hrid hra
      obtain ⟨q, hq, hqc⟩ := hother s hs hsid hsa
      rw [hfoth r hrid, hfoth s hsid, hp, hq]
      simp only [Option.map_some']
      intro hcon
      have hpq : p = q := hφinj p q hpc hqc (Option.some.inj hcon)
      exact hdist r hr s hs hrs hra hsa (by rw [hp, hq, hpq])

/-- The shift `φ` preserves the relative order of all rows other than the
moved one. -/
lemma move_order {t : List (Row α)} {id : Nat} {c : Int}
    {f : Row α → Row α} {φ : Int → Int}
    (hφmono : ∀ p q : Int, p ≠ c → q ≠ c → (p < q ↔ φ p < φ q))
    (hsome : ∀ r ∈ t, r.active = true → r.priority.isSome = true)
    (hdist : ∀ r ∈ t, ∀ s ∈ t, r ≠ s → r.active = true → s.active = true →
      r.priority ≠ s.priority)
    (r0 : Row α) (hr0 : r0 ∈ t) (hr0id : r0.id = id) (hr0act : r0.active = true)
    (hr0pri : r0.priority = some c)
    (hfoth : ∀ r : Row α, r.id ≠ id → (f r).priority = r.priority.map φ) :
    ∀ r ∈ t, ∀ s ∈ t, r.id ≠ id → s.id ≠ id → r.active = true → s.active = true →
      (priVal r < priVal s ↔ priVal (f r) < priVal (f s)) := by
  have hother : ∀ s ∈ t, s.id ≠ id → s.active = true →
      ∃ q : Int, s.priority = some q ∧ q ≠ c := by
    intro s hs hsid hsa
    obtain ⟨q, hq⟩ := Option.isSome_iff_exists.mp (hsome s hs hsa)
    refine ⟨q, hq, fun hqc => ?_⟩
    have hsr0 : s ≠ r0 := fun h => hsid (h ▸ hr0id)
    exact hdist s hs r0 hr0 hsr0 hsa hr0act (by rw [hq, hr0pri, hqc])
  intro r hr s hs hrid hsid hra hsa
  obtain ⟨p, hp, hpc⟩ := hother r hr hrid hra
  obtain ⟨q, hq, hqc⟩ := hother s hs hsid hsa
  have h1 : priVal r = p := by simp [priVal, hp]
  have h2 : priVal s = q := by simp [priVal, hq]
  have h3 : priVal (f r) = φ p := by
    rw [priVal, hfoth r hrid, hp]; rfl
  have h4 : priVal (f s) = φ q := by
    rw [priVal, hfoth s hsid, hq]; rfl
  rw [h1, h2, h3, h4]
  exact hφmono p q hpc hqc

end MoveLemmas

section MoveRowLemmas

variable {α : Type}

lemma moveRowDown_id (id : Nat) (c target : Int) (r : Row α) :
    (moveRowDown id c target r).id = r.id := by
  unfold moveRowDown
  by_cases h : r.id = id <;> simp [h, shiftRowDown_id]

lemma moveRowDown_deletedAt (id : Nat) (c target : Int) (r : Row α) :
    (moveRowDown id c target r).deletedAt = r.deletedAt := by
  unfold moveRowDown
  by_cases h : r.id = id <;> simp [h, shiftRowDown_deletedAt]

lemma moveRowDown_payload (id : Nat) (c target : Int) (r : Row α) :
    (moveRowDown id c target r).payload = r.payload := by
  unfold moveRowDown
  by_cases h : r.id = id <;> simp [h, shiftRowDown_payload]

lemma moveRowDown_pri_moved (id : Nat) (c target : Int) (r : Row α)
    (h : r.id = id) : (moveRowDown id c target r).priority = some target := by
  simp [moveRowDown, h]

lemma moveRowDown_pri_other (id : Nat) (c target : Int) (r : Row α)
    (h : r.id ≠ id) :
    (moveRowDown id c target r).priority = r.priority.map (phiDown c target) := by
  simp [moveRowDown, h, shiftRowDown_priority]

lemma moveRowUp_id (id : Nat) (c target : Int) (r : Row α) :
    (moveRowUp id c target r).id = r.id := by
  unfold moveRowUp
  by_cases h : r.id = id <;> simp [h, shiftRowUp_id]

lemma moveRowUp_deletedAt (id : Nat) (c target : Int) (r : Row α) :
    (moveRowUp id c target r).deletedAt = r.deletedAt := by
  unfold moveRowUp
  by_cases h : r.id = id <;> simp [h, shiftRowUp_deletedAt]

lemma moveRowUp_payload (id : Nat) (c target : Int) (r : Row α) :
    (moveRowUp id c target r).payload = r.payload := by
  unfold moveRowUp
  by_cases h : r.id = id <;> simp [h, shiftRowUp_payload]

lemma moveRowUp_pri_moved (id : Nat) (c target : Int) (r : Row α)
    (h : r.id = id) : (moveRowUp id c target r).priority = some target := by
  simp [moveRowUp, h]

lemma moveRowUp_pri_other (id : Nat) (c target : Int) (r : Row α)
    (h : r.id ≠ id) :
    (moveRowUp id c target r).priority = r.priority.map (phiUp c target) := by
  simp [moveRowUp, h, shiftRowUp_priority]

/-- The spec's wording of the downward shift agrees with the embedded one. -/
lemma spec_down_eq (c target : Int) (t : List (Row α)) :
    (t.map fun r =>
      match r.priority with
      | none => r
      | some p =>
        if c < p ∧ p ≤ target then { r with priority := some (p - 1) } else r) =
    t.map (shiftRowDown c target) := by
  refine List.map_congr_left fun r _ => ?_
  rcases r with ⟨i, pri, d, pl⟩
  cases pri with
  | none => rfl
  | some p =>
    simp only [shiftRowDown, phiDown]
    split_ifs <;> rfl

/-- The spec's wording of the upward shift agrees with the embedded one. -/
lemma spec_up_eq (c target : Int) (t : List (Row α)) :
    (t.map fun r =>
      match r.priority with
      | none => r
      | some p =>
        if target ≤ p ∧ p < c then { r with priority := some (p + 1) } else r) =
    t.map (shiftRowUp c target) := by
  refine List.map_congr_left fun r _ => ?_
  rcases r with ⟨i, pri, d, pl⟩
  cases pri with
  | none => rfl
  | some p =>
    simp only [shiftRowUp, phiUp]
    split_ifs <;> rfl

end MoveRowLemmas

/-- Sorting does not change which rows are selected. -/
lemma mem_sortBy {β : Type} (le : β → β → Bool) (l : List β) (x : β) :
    x ∈ sortBy le l ↔ x ∈ l :=
  List.mem_insertionSort _


/-- C1 (amended: the moved id must denote an ACTIVE row, and the preserved
relative order is that of the active rows): on a priority-enabled table whose
active rows hold pairwise-distinct integer priorities, `updatePriority`
follows the specified shift algorithm, afterwards no two active rows share a
priority, and the relative priority order of all active rows other than the
moved row is unchanged. -/
theorem updatePriority_shift_correct {α : Type} (cfg : TableConfig)
    (t : List (Row α)) (id : Nat) (target : Int)
    (hfeat : cfg.hasPriority = true)
    (hid : 0 < id) (htarget : 0 ≤ target)
    (hids : (t.map Row.id).Nodup)
    (hsome : ∀ r ∈ t, r.active = true → r.priority.isSome = true)
    (hdist : ActiveDistinct t)
    (r0 : Row α) (hr0 : r0 ∈ t) (hr0id : r0.id = id) (hr0act : r0.active = true) :
    ∃ (t' : List (Row α)) (f : Row α → Row α),
      updatePriority cfg t id target = .ok t' ∧
      updatePrioritySpec t id target = some t' ∧
      t' = t.map f ∧
      (∀ r : Row α, (f r).id = r.id ∧ (f r).deletedAt = r.deletedAt ∧
        (f r).payload = r.payload) ∧
      (f r0).priority = some target ∧
      ActiveDistinct t' ∧
      (∀ r ∈ t, ∀ s ∈ t, r.id ≠ id → s.id ≠ id → r.active = true →
        s.active = true →
        (priVal r < priVal s ↔ priVal (f r) < priVal (f s))) := by
  obtain ⟨c, hc⟩ := Option.isSome_iff_exists.mp (hsome r0 hr0 hr0act)
  have hfind : t.find? (fun r => r.id = id) = some r0 := find?_id_eq hids hr0 hr0id
  have hdql := activeDistinct_mem hdist
  have hidne : ¬ id = 0 := by omega
  have hnlt : ¬ target < 0 := by omega
  by_cases hct : c = target
  · refine ⟨t, fun r => r, ?_, ?_, by simp, fun r => ⟨rfl, rfl, rfl⟩,
      by rw [hc, hct], hdist, fun r _ s _ _ _ _ _ => Iff.rfl⟩
    · simp [updatePriority, hfeat, hidne, hnlt, hfind, numberOfOpt, hc, hct]
    · simp [updatePrioritySpec, hfind, hc, hct]
  · by_cases hlt : c < target
    · have hnum : numberOfOpt r0.priority = c := by rw [hc]; rfl
      refine ⟨t.map (moveRowDown id c target), moveRowDown id c target,
        ?_, ?_, rfl,
        fun r => ⟨moveRowDown_id id c target r, moveRowDown_deletedAt id c target r,
          moveRowDown_payload id c target r⟩,
        moveRowDown_pri_moved id c target r0 hr0id, ?_, ?_⟩
      · simp only [updatePriority, hfeat, hfind]
        rw [if_neg (by simp), if_neg hidne, if_neg hnlt]
        simp only [hnum, if_neg hct, if_pos hlt, setRowPriority_map_shiftDown]
      · simp only [updatePrioritySpec, hfind, hc]
        rw [if_neg hct, if_pos hlt, spec_down_eq, setRowPriority_map_shiftDown]
      · exact activeDistinct_map hids (moveRowDown_deletedAt id c target)
          (move_distinct (phiDown_inj c target) (fun p _ => phiDown_ne_target c target p hlt)
            hids hsome hdql r0 hr0 hr0id hr0act hc
            (moveRowDown_pri_moved id c target) (moveRowDown_pri_other id c target))
      · exact move_order (phiDown_strictMono c target) hsome hdql r0 hr0 hr0id hr0act hc
          (moveRowDown_pri_other id c target)
    · have hgt : target < c := by omega
      have hnum : numberOfOpt r0.priority = c := by rw [hc]; rfl
      refine ⟨t.map (moveRowUp id c target), moveRowUp id c target,
        ?_, ?_, rfl,
        fun r => ⟨moveRowUp_id id c target r, moveRowUp_deletedAt id c target r,
          moveRowUp_payload id c target r⟩,
        moveRowUp_pri_moved id c target r0 hr0id, ?_, ?_⟩
      · simp only [updatePriority, hfeat, hfind]
        rw [if_neg (by simp), if_neg hidne, if_neg hnlt]
        simp only [hnum, if_neg hct, if_neg hlt, setRowPriority_map_shiftUp]
      · simp only [updatePrioritySpec, hfind, hc]
        rw [if_neg hct, if_neg hlt, spec_up_eq, setRowPriority_map_shiftUp]
      · exact activeDistinct_map hids (moveRowUp_deletedAt id c target)
          (move_distinct (phiUp_inj c target) (fun p _ => phiUp_ne_target c target p hgt)
            hids hsome hdql r0 hr0 hr0id hr0act hc
            (moveRowUp_pri_moved id c target) (moveRowUp_pri_other id c target))
      · exact move_order (phiUp_strictMono c target) hsome hdql r0 hr0 hr0id hr0act hc
          (moveRowUp_pri_other id c target)

/-- C1 counterexample to the claim as stated: the table below has
pairwise-distinct active priorities (1 and 2) and row id 3 is present (but
soft-deleted, holding priority 1).  `updatePriority(3, 3)` succeeds — the row
read and the shift UPDATEs carry no `deleted_at` filter — and afterwards the
two ACTIVE rows both hold priority 1. -/
theorem updatePriority_deleted_row_counterexample :
    ActiveDistinct ([⟨1, some 1, none, ()⟩, ⟨2, some 2, none, ()⟩,
        ⟨3, some 1, some 0, ()⟩] : List (Row Unit)) ∧
    (0 : Int) ≤ 3 ∧
    updatePriority ⟨true, true⟩
      ([⟨1, some 1, none, ()⟩, ⟨2, some 2, none, ()⟩,
        ⟨3, some 1, some 0, ()⟩] : List (Row Unit)) 3 3 =
      .ok [⟨1, some 1, none, ()⟩, ⟨2, some 1, none, ()⟩, ⟨3, some 3, some 0, ()⟩] ∧
    ¬ ActiveDistinct ([⟨1, some 1, none, ()⟩, ⟨2, some 1, none, ()⟩,
        ⟨3, some 3, some 0, ()⟩] : List (Row Unit)) :=
  ⟨by decide, by decide, by rfl, by decide⟩

/-- Witness: the amended C1 theorem applied to a concrete two-row table. -/
theorem updatePriority_shift_correct_witness :
    ∃ (t' : List (Row Unit)) (f : Row Unit → Row Unit),
      updatePriority ⟨true, true⟩
        ([⟨1, some 5, none, ()⟩, ⟨2, some 7, none, ()⟩] : List (Row Unit)) 1 9 =
        .ok t' ∧
      updatePrioritySpec
        ([⟨1, some 5, none, ()⟩, ⟨2, some 7, none, ()⟩] : List (Row Unit)) 1 9 =
        some t' ∧
      t' = ([⟨1, some 5, none, ()⟩, ⟨2, some 7, none, ()⟩] : List (Row Unit)).map f ∧
      (∀ r : Row Unit, (f r).id = r.id ∧ (f r).deletedAt = r.deletedAt ∧
        (f r).payload = r.payload) ∧
      (f ⟨1, some 5, none, ()⟩).priority = some 9 ∧
      ActiveDistinct t' ∧
      (∀ r ∈ ([⟨1, some 5, none, ()⟩, ⟨2, some 7, none, ()⟩] : List (Row Unit)),
        ∀ s ∈ ([⟨1, some 5, none, ()⟩, ⟨2, some 7, none, ()⟩] : List (Row Unit)),
        r.id ≠ 1 → s.id ≠ 1 → r.active = true → s.active = true →
        (priVal r < priVal s ↔ priVal (f r) < priVal (f s))) :=
  updatePriority_shift_correct ⟨true, true⟩
    [⟨1, some 5, none, ()⟩, ⟨2, some 7, none, ()⟩] 1 9
    rfl (by decide) (by decide) (by decide) (by decide) (by decide)
    ⟨1, some 5, none, ()⟩ (by decide) rfl (by decide)

section CreateLemmas

variable {α : Type}

/-- When the priority feature is on and no valid priority was supplied,
`create` inserts the row with a NULL priority and then stamps
`priority = id` on every NULL-priority row. -/
lemma create_unprovided_eq (cfg : TableConfig) (newId : Nat) (t : List (Row α))
    (sp : Option Int) (payload : α)
    (hfeat : cfg.hasPriority = true) (hnp : validSuppliedPriority sp = false) :
    create cfg newId t sp payload =
      (t ++ ([⟨newId, none, none, payload⟩] : List (Row α))).map
        (fun r : Row α => if r.priority = none
          then { r with priority := some (r.id : Int) } else r) := by
  simp [create, hfeat, hnp, List.map_append]

end CreateLemmas

/-- C2 (amended: the generated priority is unique among active rows provided
no pre-existing active row already holds a priority equal to the generated
id): with the priority feature on and no valid positive-integer priority
supplied, the created row is stored with `priority = id`, stamped inside the
same transaction as the insert. -/
theorem create_priority_eq_id {α : Type} (cfg : TableConfig) (newId : Nat)
    (t : List (Row α)) (sp : Option Int) (payload : α)
    (hfeat : cfg.hasPriority = true)
    (hnp : validSuppliedPriority sp = false)
    (hfresh : ∀ r ∈ t, r.id < newId)
    (hnocollide : ∀ r ∈ t, r.active = true → r.priority ≠ some (newId : Int)) :
    (create cfg newId t sp payload).find? (fun r => r.id = newId) =
      some ⟨newId, some (newId : Int), none, payload⟩ ∧
    ∀ r ∈ create cfg newId t sp payload, r.id ≠ newId → r.active = true →
      r.priority ≠ some (newId : Int) := by
  rw [create_unprovided_eq cfg newId t sp payload hfeat hnp]
  set f : Row α → Row α := fun r =>
    if r.priority = none then { r with priority := some (r.id : Int) } else r with hf
  have hfid : ∀ r : Row α, (f r).id = r.id := by
    intro r
    rw [hf]
    by_cases h : r.priority = none <;> simp [h]
  have hfdel : ∀ r : Row α, (f r).deletedAt = r.deletedAt := by
    intro r
    rw [hf]
    by_cases h : r.priority = none <;> simp [h]
  constructor
  · rw [List.map_append, List.find?_append]
    have hleft : (t.map f).find? (fun r => r.id = newId) = none := by
      rw [List.find?_eq_none]
      intro x hx
      obtain ⟨r, hr, hrx⟩ := List.mem_map.mp hx
      have : x.id = r.id := by rw [← hrx]; exact hfid r
      have := hfresh r hr
      simp only [decide_eq_true_eq]
      omega
    rw [hleft]
    simp [hf]
  · intro r hmem hrid hract
    obtain ⟨s, hs, hsr⟩ := List.mem_map.mp hmem
    rcases List.mem_append.mp hs with hst | hnew
    · by_cases hnull : s.priority = none
      · have : r = { s with priority := some (s.id : Int) } := by
          rw [← hsr, hf]; simp [hnull]
        rw [this]
        have hlt := hfresh s hst
        intro hcon
        have hsid : ((s.id : Nat) : Int) = ((newId : Nat) : Int) := by simpa using hcon
        have : s.id = newId := by exact_mod_cast hsid
        omega
      · have hrs : r = s := by rw [← hsr, hf]; simp [hnull]
        rw [hrs]
        exact hnocollide s hst (hrs ▸ hract)
    · exfalso
      have : s = ⟨newId, none, none, payload⟩ := by simpa using hnew
      apply hrid
      rw [← hsr, this, hfid]

/-- C2 counterexample to the claim as stated: create a first row with an
explicitly supplied priority 2, then create a second row with no priority.
The second row gets `priority = id = 2`, which collides with the first
(active) row's priority — uniqueness among active rows does not hold. -/
theorem create_priority_counterexample :
    create ⟨false, true⟩ 2 (create ⟨false, true⟩ 1 ([] : List (Row Unit)) (some 2) ()) none () =
      [⟨1, some 2, none, ()⟩, ⟨2, some 2, none, ()⟩] ∧
    ¬ ActiveDistinct ([⟨1, some 2, none, ()⟩, ⟨2, some 2, none, ()⟩] : List (Row Unit)) :=
  ⟨by rfl, by decide⟩

/-- Witness: the amended C2 theorem at a concrete one-row table. -/
theorem create_priority_eq_id_witness :
    (create ⟨false, true⟩ 2 ([⟨1, some 1, none, ()⟩] : List (Row Unit)) none ()).find?
        (fun r => r.id = 2) = some ⟨2, some 2, none, ()⟩ ∧
    ∀ r ∈ create ⟨false, true⟩ 2 ([⟨1, some 1, none, ()⟩] : List (Row Unit)) none (),
      r.id ≠ 2 → r.active = true → r.priority ≠ some 2 :=
  create_priority_eq_id ⟨false, true⟩ 2 [⟨1, some 1, none, ()⟩] none ()
    rfl rfl (by decide) (by decide)

/-- C9: the in-transaction stamping step of `create` (priority feature on, no
valid supplied priority) sets `priority = id` on EVERY row whose priority is
NULL at that moment, so a pre-existing NULL-priority row also acquires
priority equal to its own id. -/
theorem create_stamps_all_null_priorities {α : Type} (cfg : TableConfig)
    (newId : Nat) (t : List (Row α)) (sp : Option Int) (payload : α)
    (hfeat : cfg.hasPriority = true)
    (hnp : validSuppliedPriority sp = false) :
    ∀ r ∈ t, r.priority = none →
      { r with priority := some (r.id : Int) } ∈ create cfg newId t sp payload := by
  intro r hr hpri
  rw [create_unprovided_eq cfg newId t sp payload hfeat hnp]
  have hstep : (fun s : Row α => if s.priority = none
      then { s with priority := some (s.id : Int) } else s) r =
      { r with priority := some (r.id : Int) } := by simp [hpri]
  rw [← hstep]
  exact List.mem_map_of_mem _ (List.mem_append_left _ hr)

/-- Witness: C9 at a table holding one pre-existing NULL-priority row. -/
theorem create_stamps_all_null_priorities_witness :
    (⟨5, some 5, none, ()⟩ : Row Unit) ∈
      create ⟨false, true⟩ 7 ([⟨5, none, none, ()⟩] : List (Row Unit)) none () :=
  create_stamps_all_null_priorities ⟨false, true⟩ 7 [⟨5, none, none, ()⟩] none ()
    rfl rfl ⟨5, none, none, ()⟩ (by decide) rfl

/-- C4: `save` never throws (it is total and Bool-valued): null/undefined
content is rejected with `false` and no insert; otherwise a successful first
insert, or a successful retry after a failed first insert, stores one new row
with `expired = false` and returns `true`; when both attempts fail the store
failure is swallowed and `false` is returned with the table unchanged. -/
theorem save_error_handling (t : List CacheRow) (newId : Nat) (key ty : String)
    (content : JSVal) (now : Int) (fail1 fail2 : Bool) :
    (nullish content = true →
      save t newId key ty content now fail1 fail2 = (false, t)) ∧
    (nullish content = false →
      ((fail1 = false ∨ fail2 = false) →
        save t newId key ty content now fail1 fail2 =
          (true, t ++ [⟨newId, key, ty, encodeJson content, some false, now⟩])) ∧
      (fail1 = true → fail2 = true →
        save t newId key ty content now fail1 fail2 = (false, t))) := by
  unfold save
  constructor
  · intro h
    rw [if_pos h]
  · intro h
    rw [if_neg (by rw [h]; simp)]
    constructor
    · rintro (rfl | rfl)
      · simp
      · cases fail1 <;> simp
    · rintro rfl rfl
      simp

/-- Witness: C4 at a failed first insert whose retry succeeds. -/
theorem save_error_handling_witness :
    save [] 1 "k" "T" (.num 1) 0 true false =
      (true, [⟨1, "k", "T", encodeJson (.num 1), some false, 0⟩]) :=
  ((save_error_handling [] 1 "k" "T" (.num 1) 0 true false).2 rfl).1 (Or.inr rfl)

section KVLemmas

lemma getValue_map_update (t : List KVRow) (key : String) (dbJson : Option JSVal)
    (hany : t.any (fun r => r.key == key) = true) :
    getValue (t.map fun r => if r.key == key then ⟨r.key, dbJson⟩ else r) key =
      some dbJson := by
  induction t with
  | nil => simp at hany
  | cons r rs ih =>
    simp only [List.any_cons, Bool.or_eq_true] at hany
    by_cases hk : (r.key == key) = true
    · unfold getValue
      rw [List.map_cons, List.find?_cons_of_pos]
      · simp [hk]
      · simp [hk]
    · have hany2 : rs.any (fun r => r.key == key) = true := by
        rcases hany with h | h
        · exact absurd h hk
        · exact h
      unfold getValue at ih ⊢
      rw [List.map_cons, List.find?_cons_of_neg]
      · exact ih hany2
      · simp [hk]

lemma getValue_append_new (t : List KVRow) (key : String) (dbJson : Option JSVal)
    (hnone : t.any (fun r => r.key == key) = false) :
    getValue (t ++ [⟨key, dbJson⟩]) key = some dbJson := by
  unfold getValue
  rw [List.find?_append]
  have h1 : t.find? (fun r => r.key == key) = none := by
    rw [List.find?_eq_none]
    intro x hx
    have := (List.any_eq_false.mp hnone) x hx
    simpa using this
  rw [h1]
  simp

lemma getValue_kvUpsert (t : List KVRow) (key : String) (dbJson : Option JSVal) :
    getValue (kvUpsert t key dbJson) key = some dbJson := by
  unfold kvUpsert
  by_cases hany : t.any (fun r => r.key == key) = true
  · rw [if_pos hany]
    exact getValue_map_update t key dbJson hany
  · rw [if_neg hany]
    exact getValue_append_new t key dbJson (by simpa using hany)

lemma getValue_setValue (t : List KVRow) (key : String) (v : JSVal)
    (t2 : List KVRow) (h : setValue t key v = .ok t2) :
    getValue t2 key = some (kvEncodeOrNull v) := by
  cases v with
  | undef => exact absurd h (by simp [setValue])
  | null =>
    have : t2 = kvUpsert t key (kvEncodeOrNull .null) := by
      simpa [setValue] using h.symm
    rw [this]; exact getValue_kvUpsert t key _
  | bool b =>
    have : t2 = kvUpsert t key (kvEncodeOrNull (.bool b)) := by
      simpa [setValue] using h.symm
    rw [this]; exact getValue_kvUpsert t key _
  | num n =>
    have : t2 = kvUpsert t key (kvEncodeOrNull (.num n)) := by
      simpa [setValue] using h.symm
    rw [this]; exact getValue_kvUpsert t key _
  | str s =>
    have : t2 = kvUpsert t key (kvEncodeOrNull (.str s)) := by
      simpa [setValue] using h.symm
    rw [this]; exact getValue_kvUpsert t key _
  | arr xs =>
    have : t2 = kvUpsert t key (kvEncodeOrNull (.arr xs)) := by
      simpa [setValue] using h.symm
    rw [this]; exact getValue_kvUpsert t key _
  | obj fs =>
    have : t2 = kvUpsert t key (kvEncodeOrNull (.obj fs)) := by
      simpa [setValue] using h.symm
    rw [this]; exact getValue_kvUpsert t key _

end KVLemmas

/-- C6: `setValue(K, undefined)` fails before any write; `setValue(K, null)`
and `setValue(K, '')` store an explicit clear after which `getValue(K)`
reads null; `getValue(K)` is absent (undefined) for a never-set key, null for
a cleared key, and the decoded stored value otherwise. -/
theorem setValue_getValue_contract (t : List KVRow) (key : String) :
    (setValue t key .undef = .error .invalidArgument) ∧
    (∀ t2, setValue t key .null = .ok t2 → getValue t2 key = some none) ∧
    (∀ t2, setValue t key (.str "") = .ok t2 → getValue t2 key = some none) ∧
    (t.find? (fun r => r.key == key) = none → getValue t key = none) ∧
    (∀ r, t.find? (fun r => r.key == key) = some r →
      getValue t key = some r.value) := by
  refine ⟨rfl, ?_, ?_, ?_, ?_⟩
  · intro t2 h
    have := getValue_setValue t key .null t2 h
    simpa [kvEncodeOrNull] using this
  · intro t2 h
    have := getValue_setValue t key (.str "") t2 h
    simpa [kvEncodeOrNull] using this
  · intro h
    unfold getValue
    rw [h]
  · intro r h
    unfold getValue
    rw [h]

/-- Witness: C6 with key "K" — undefined rejected on the empty store, null
stored and read back as null. -/
theorem setValue_getValue_contract_witness :
    setValue ([] : List KVRow) "K" .undef = .error .invalidArgument ∧
    getValue [⟨"K", none⟩] "K" = some none :=
  ⟨(setValue_getValue_contract [] "K").1,
   (setValue_getValue_contract [] "K").2.1 [⟨"K", none⟩] rfl⟩

/-- C5: with soft delete configured, `getById` and `list` without
`includeDeleted` never return a row whose `deleted_at` is non-null; with
`includeDeleted` set the row (even soft-deleted) is returned. -/
theorem softDelete_hides_deleted_rows {α : Type} (cfg : TableConfig)
    (t : List (Row α)) (id : Nat) (limit offset : Nat)
    (orderBy : Option (Row α → Row α → Bool))
    (hsd : cfg.softDelete = true) :
    (∀ r : Row α, getById cfg t id false = .ok (some r) → r.deletedAt = none) ∧
    (∀ r ∈ list cfg t false limit offset orderBy, r.deletedAt = none) ∧
    ((t.map Row.id).Nodup → ∀ r ∈ t, r.id = id → 0 < id →
      getById cfg t id true = .ok (some r)) := by
  refine ⟨?_, ?_, ?_⟩
  · intro r h
    unfold getById at h
    by_cases h0 : id = 0
    · rw [if_pos h0] at h
      exact absurd h (by simp)
    · rw [if_neg h0, if_pos (by rw [hsd]; rfl)] at h
      have hfind : t.find? (fun r => decide (r.id = id) && r.active) = some r := by
        simpa using h
      have := List.find?_some hfind
      simp only [Bool.and_eq_true, decide_eq_true_eq] at this
      have hact := this.2
      unfold Row.active at hact
      simpa using hact
  · intro r hr
    have hcond : (cfg.softDelete && !false) = true := by rw [hsd]; rfl
    unfold list at hr
    rw [hcond] at hr
    simp only [if_pos] at hr
    have hr2 : r ∈ (match orderBy with
        | some le => sortBy le (t.filter (fun x : Row α => x.active))
        | none => t.filter (fun x : Row α => x.active)) :=
      List.mem_of_mem_drop (List.mem_of_mem_take hr)
    have hr3 : r ∈ t.filter (fun x : Row α => x.active) := by
      cases orderBy with
      | some le => exact (mem_sortBy le _ r).mp hr2
      | none => exact hr2
    have hact := (List.mem_filter.mp hr3).2
    unfold Row.active at hact
    simpa using hact
  · intro hids r hr hrid hpos
    unfold getById
    rw [if_neg (by omega), if_neg (by simp)]
    rw [show (fun r : Row α => decide (r.id = id)) = (fun r : Row α => decide (r.id = id)) from rfl]
    rw [find?_id_eq hids hr hrid]

/-- Witness: C5 on a two-row table (row 1 soft-deleted, row 2 active). -/
theorem softDelete_hides_deleted_rows_witness :
    (⟨2, none, none, ()⟩ : Row Unit).deletedAt = none ∧
    getById ⟨true, false⟩
      ([⟨1, none, some 5, ()⟩, ⟨2, none, none, ()⟩] : List (Row Unit)) 1 true =
      .ok (some ⟨1, none, some 5, ()⟩) :=
  ⟨(softDelete_hides_deleted_rows ⟨true, false⟩
      [⟨1, none, some 5, ()⟩, ⟨2, none, none, ()⟩] 1 50 0 none rfl).2.1
      ⟨2, none, none, ()⟩ (by decide),
   (softDelete_hides_deleted_rows ⟨true, false⟩
      [⟨1, none, some 5, ()⟩, ⟨2, none, none, ()⟩] 1 50 0 none rfl).2.2
      (by decide) ⟨1, none, some 5, ()⟩ (by decide) rfl (by decide)⟩

section CacheLemmas

/-- On its documented domain (a positive window or one of the three
sentinels) the code's TTL switch computes exactly the spec's TTL policy. -/
lemma ttlFilter_eq_spec (now ttl : Int) (r : CacheRow)
    (hdom : 0 < ttl ∨ ttl = TTL_NOT_EXPIRED ∨ ttl = TTL_EXPIRED ∨
      ttl = TTL_UNLIMITED) :
    ttlFilter now ttl r = ttlPolicySpec now ttl r := by
  have hne : notExpiredRow r = !(expiredRow r) := rfl
  unfold ttlFilter ttlPolicySpec TTL_NOT_EXPIRED TTL_EXPIRED TTL_UNLIMITED at *
  rcases hdom with h | h | h | h
  · rw [if_neg (by omega), if_neg (by omega), if_neg (by omega), if_pos h, hne]
  · rw [if_pos h, if_neg (by omega), if_pos h, hne]
  · rw [if_neg (by omega), if_pos h, if_neg (by omega), if_neg (by omega),
      if_pos h]
  · rw [if_neg (by omega), if_neg (by omega), if_pos h, if_neg (by omega),
      if_neg (by omega), if_neg (by omega)]

end CacheLemmas

/-- C3: `getLast`/`getAll`/`isCached` select rows exactly per the spec's TTL
policy (positive window / NOT_EXPIRED / EXPIRED / UNLIMITED); an unspecified
ttl defaults to NOT_EXPIRED; and the concrete three-row scenario (A marked
expired, C backdated by two hours) yields ONE_HOUR → {B}, UNLIMITED →
{B,A,C}, EXPIRED → {A}, NOT_EXPIRED → {B,C}. -/
theorem cache_ttl_policy :
    (∀ (now ttl : Int) (t : List CacheRow) (sel : CacheSelect) (r : CacheRow),
      selectNonEmpty sel = true →
      (0 < ttl ∨ ttl = TTL_NOT_EXPIRED ∨ ttl = TTL_EXPIRED ∨
        ttl = TTL_UNLIMITED) →
      ∃ res, getAll now t sel (some ttl) = .ok res ∧
        (r ∈ res ↔ r ∈ t ∧ matchesSelect sel r = true ∧
          ttlPolicySpec now ttl r = true)) ∧
    (∀ (now : Int) (t : List CacheRow) (sel : CacheSelect),
      getAll now t sel none = getAll now t sel (some TTL_NOT_EXPIRED) ∧
      getLast now t sel none = getLast now t sel (some TTL_NOT_EXPIRED) ∧
      isCached now t sel none = isCached now t sel (some TTL_NOT_EXPIRED)) ∧
    (∀ (now ttl : Int) (t : List CacheRow) (sel : CacheSelect),
      selectNonEmpty sel = true →
      (0 < ttl ∨ ttl = TTL_NOT_EXPIRED ∨ ttl = TTL_EXPIRED ∨
        ttl = TTL_UNLIMITED) →
      (isCached now t sel (some ttl) =
        .ok (t.any fun r => matchesSelect sel r && ttlPolicySpec now ttl r)) ∧
      (∀ c, getLast now t sel (some ttl) = .ok (some c) →
        ∃ r ∈ t, matchesSelect sel r = true ∧ ttlPolicySpec now ttl r = true ∧
          r.content = c)) ∧
    (getAll 7200 [⟨1, "a", "T", .num 1, some true, 7200⟩,
        ⟨2, "b", "T", .num 2, some false, 7200⟩,
        ⟨3, "c", "T", .num 3, some false, 0⟩] ⟨none, some "T"⟩
        (some TTL_ONE_HOUR) =
      .ok [⟨2, "b", "T", .num 2, some false, 7200⟩] ∧
    getAll 7200 [⟨1, "a", "T", .num 1, some true, 7200⟩,
        ⟨2, "b", "T", .num 2, some false, 7200⟩,
        ⟨3, "c", "T", .num 3, some false, 0⟩] ⟨none, some "T"⟩
        (some TTL_UNLIMITED) =
      .ok [⟨2, "b", "T", .num 2, some false, 7200⟩,
        ⟨1, "a", "T", .num 1, some true, 7200⟩,
        ⟨3, "c", "T", .num 3, some false, 0⟩] ∧
    getAll 7200 [⟨1, "a", "T", .num 1, some true, 7200⟩,
        ⟨2, "b", "T", .num 2, some false, 7200⟩,
        ⟨3, "c", "T", .num 3, some false, 0⟩] ⟨none, some "T"⟩
        (some TTL_EXPIRED) =
      .ok [⟨1, "a", "T", .num 1, some true, 7200⟩] ∧
    getAll 7200 [⟨1, "a", "T", .num 1, some true, 7200⟩,
        ⟨2, "b", "T", .num 2, some false, 7200⟩,
        ⟨3, "c", "T", .num 3, some false, 0⟩] ⟨none, some "T"⟩
        (some TTL_NOT_EXPIRED) =
      .ok [⟨2, "b", "T", .num 2, some false, 7200⟩,
        ⟨3, "c", "T", .num 3, some false, 0⟩]) := by
  refine ⟨?_, ?_, ?_, by rfl, by rfl, by rfl, by rfl⟩
  · intro now ttl t sel r hsel hdom
    refine ⟨sortBy cacheNewestFirst (t.filter fun x =>
      matchesSelect sel x && ttlFilter now ((some ttl).getD TTL_NOT_EXPIRED) x),
      ?_, ?_⟩
    · unfold getAll
      rw [if_neg (by rw [hsel]; simp)]
    · rw [mem_sortBy, List.mem_filter]
      constructor
      · rintro ⟨hmem, hpred⟩
        rw [Option.getD_some, Bool.and_eq_true, ttlFilter_eq_spec now ttl r hdom]
          at hpred
        exact ⟨hmem, hpred.1, hpred.2⟩
      · rintro ⟨hmem, hm, hp⟩
        refine ⟨hmem, ?_⟩
        rw [Option.getD_some, Bool.and_eq_true, ttlFilter_eq_spec now ttl r hdom]
        exact ⟨hm, hp⟩
  · intro now t sel
    exact ⟨rfl, rfl, rfl⟩
  · intro now ttl t sel hsel hdom
    constructor
    · unfold isCached
      rw [if_neg (by rw [hsel]; simp)]
      have hfun : (fun r => matchesSelect sel r &&
          ttlFilter now ((some ttl).getD TTL_NOT_EXPIRED) r) =
          (fun r => matchesSelect sel r && ttlPolicySpec now ttl r) := by
        funext r
        rw [Option.getD_some, ttlFilter_eq_spec now ttl r hdom]
      rw [hfun]
    · intro c h
      unfold getLast at h
      rw [if_neg (by rw [hsel]; simp)] at h
      have h2 : ((sortBy cacheNewestFirst (List.filter (fun r =>
          matchesSelect sel r &&
            ttlFilter now ((some ttl).getD TTL_NOT_EXPIRED) r) t)).head?).map
              CacheRow.content = some c := by
        simpa using h
      obtain ⟨r, hr, hrc⟩ := Option.map_eq_some'.mp h2
      have hmem : r ∈ sortBy cacheNewestFirst (List.filter (fun r =>
          matchesSelect sel r &&
            ttlFilter now ((some ttl).getD TTL_NOT_EXPIRED) r) t) :=
        List.mem_of_mem_head? hr
      rw [mem_sortBy, List.mem_filter] at hmem
      obtain ⟨hmem, hpred⟩ := hmem
      rw [Option.getD_some, Bool.and_eq_true,
        ttlFilter_eq_spec now ttl r hdom] at hpred
      exact ⟨r, hmem, hpred.1, hpred.2, hrc⟩

/-- Witness: C3's quantified parts applied at the scenario table (row B and
ONE_HOUR for the membership part; EXPIRED for the isCached form). -/
theorem cache_ttl_policy_witness :
    (∃ res, getAll 7200 [⟨1, "a", "T", .num 1, some true, 7200⟩,
        ⟨2, "b", "T", .num 2, some false, 7200⟩,
        ⟨3, "c", "T", .num 3, some false, 0⟩] ⟨none, some "T"⟩
        (some TTL_ONE_HOUR) = .ok res ∧
      ((⟨2, "b", "T", .num 2, some false, 7200⟩ : CacheRow) ∈ res ↔
        (⟨2, "b", "T", .num 2, some false, 7200⟩ : CacheRow) ∈
          [⟨1, "a", "T", .num 1, some true, 7200⟩,
            ⟨2, "b", "T", .num 2, some false, 7200⟩,
            ⟨3, "c", "T", .num 3, some false, 0⟩] ∧
        matchesSelect ⟨none, some "T"⟩ ⟨2, "b", "T", .num 2, some false, 7200⟩ =
          true ∧
        ttlPolicySpec 7200 TTL_ONE_HOUR
          ⟨2, "b", "T", .num 2, some false, 7200⟩ = true)) ∧
    isCached 7200 [⟨1, "a", "T", .num 1, some true, 7200⟩,
        ⟨2, "b", "T", .num 2, some false, 7200⟩,
        ⟨3, "c", "T", .num 3, some false, 0⟩] ⟨none, some "T"⟩
        (some TTL_EXPIRED) =
      .ok ([⟨1, "a", "T", .num 1, some true, 7200⟩,
        ⟨2, "b", "T", .num 2, some false, 7200⟩,
        ⟨3, "c", "T", .num 3, some false, 0⟩].any fun r =>
          matchesSelect ⟨none, some "T"⟩ r && ttlPolicySpec 7200 TTL_EXPIRED r) :=
  ⟨cache_ttl_policy.1 7200 TTL_ONE_HOUR
      [⟨1, "a", "T", .num 1, some true, 7200⟩,
        ⟨2, "b", "T", .num 2, some false, 7200⟩,
        ⟨3, "c", "T", .num 3, some false, 0⟩] ⟨none, some "T"⟩
      ⟨2, "b", "T", .num 2, some false, 7200⟩ rfl (Or.inl (by decide)),
   (cache_ttl_policy.2.2.1 7200 TTL_EXPIRED
      [⟨1, "a", "T", .num 1, some true, 7200⟩,
        ⟨2, "b", "T", .num 2, some false, 7200⟩,
        ⟨3, "c", "T", .num 3, some false, 0⟩] ⟨none, some "T"⟩ rfl
      (Or.inr (Or.inr (Or.inl rfl)))).1⟩

section ObjectLemmas

lemma objGet_cons_self (k0 : String) (v : JSVal) (ps : List (String × JSVal)) :
    objGet ((k0, v) :: ps) k0 = some v := by
  unfold objGet
  rw [List.find?_cons_of_pos]
  · rfl
  · simp

lemma objGet_cons_other (k0 k : String) (v : JSVal) (ps : List (String × JSVal))
    (h : k0 ≠ k) : objGet ((k0, v) :: ps) k = objGet ps k := by
  unfold objGet
  rw [List.find?_cons_of_neg]
  simp [h]

lemma objGet_objSet_self (fs : List (String × JSVal)) (k : String) (v : JSVal) :
    objGet (objSet fs k v) k = some v := by
  unfold objGet objSet
  rw [List.find?_append]
  have h1 : (fs.filter fun p => p.1 != k).find? (fun p => p.1 == k) = none := by
    rw [List.find?_eq_none]
    intro p hp
    have := (List.mem_filter.mp hp).2
    simp only [bne_iff_ne, ne_eq] at this
    simp [this]
  rw [h1]
  simp

lemma objGet_objSet_other (fs : List (String × JSVal)) (k k2 : String) (v : JSVal)
    (h : k2 ≠ k) : objGet (objSet fs k v) k2 = objGet fs k2 := by
  unfold objSet
  induction fs with
  | nil =>
    show objGet [(k, v)] k2 = objGet [] k2
    rw [objGet_cons_other k k2 v [] (Ne.symm h)]
  | cons p ps ih =>
    rcases p with ⟨k1, v1⟩
    by_cases hk : k1 = k
    · subst hk
      rw [List.filter_cons_of_neg]
      · rw [objGet_cons_other k1 k2 v1 ps (Ne.symm h)]
        exact ih
      · simp
    · rw [List.filter_cons_of_pos]
      · by_cases h2 : k1 = k2
        · subst h2
          rw [List.cons_append, objGet_cons_self, objGet_cons_self]
        · rw [List.cons_append, objGet_cons_other k1 k2 _ _ h2,
            objGet_cons_other k1 k2 _ ps h2]
          exact ih
      · simp [hk]

lemma objGet_stripMeta (fs : List (String × JSVal)) (k : String)
    (h1 : k ≠ "id") (h2 : k ≠ "priority") (h3 : k ≠ "type") :
    objGet (stripMeta fs) k = objGet fs k := by
  unfold stripMeta
  induction fs with
  | nil => rfl
  | cons p ps ih =>
    rcases p with ⟨k0, v⟩
    by_cases hp : k0 = "id" ∨ k0 = "priority" ∨ k0 = "type"
    · rw [List.filter_cons_of_neg (by simp; tauto)]
      have hk : k0 ≠ k := by
        rcases hp with h | h | h <;> subst h
        · exact Ne.symm h1
        · exact Ne.symm h2
        · exact Ne.symm h3
      rw [objGet_cons_other k0 k v ps hk]
      exact ih
    · push_neg at hp
      rw [List.filter_cons_of_pos (by simp [hp.1, hp.2.1, hp.2.2])]
      by_cases hk : k0 = k
      · subst hk
        rw [objGet_cons_self, objGet_cons_self]
      · rw [objGet_cons_other k0 k v _ hk, objGet_cons_other k0 k v ps hk]
        exact ih

lemma objGet_normFields_not_mem (fs : List (String × JSVal)) (k : String)
    (h : ∀ p ∈ fs, p.1 ≠ k) : objGet (normFields fs) k = none := by
  induction fs with
  | nil => rfl
  | cons p ps ih =>
    rcases p with ⟨k0, v⟩
    have hk0 : k0 ≠ k := h ⟨k0, v⟩ (List.mem_cons_self _ _)
    have hrest : ∀ p ∈ ps, p.1 ≠ k := fun p hp => h p (List.mem_cons_of_mem _ hp)
    cases v with
    | undef => exact ih hrest
    | null =>
      rw [show normFields ((k0, JSVal.null) :: ps) =
        (k0, normVal JSVal.null) :: normFields ps from rfl,
        objGet_cons_other k0 k _ _ hk0]
      exact ih hrest
    | bool b =>
      rw [show normFields ((k0, JSVal.bool b) :: ps) =
        (k0, normVal (JSVal.bool b)) :: normFields ps from rfl,
        objGet_cons_other k0 k _ _ hk0]
      exact ih hrest
    | num n =>
      rw [show normFields ((k0, JSVal.num n) :: ps) =
        (k0, normVal (JSVal.num n)) :: normFields ps from rfl,
        objGet_cons_other k0 k _ _ hk0]
      exact ih hrest
    | str st =>
      rw [show normFields ((k0, JSVal.str st) :: ps) =
        (k0, normVal (JSVal.str st)) :: normFields ps from rfl,
        objGet_cons_other k0 k _ _ hk0]
      exact ih hrest
    | arr xs =>
      rw [show normFields ((k0, JSVal.arr xs) :: ps) =
        (k0, normVal (JSVal.arr xs)) :: normFields ps from rfl,
        objGet_cons_other k0 k _ _ hk0]
      exact ih hrest
    | obj os =>
      rw [show normFields ((k0, JSVal.obj os) :: ps) =
        (k0, normVal (JSVal.obj os)) :: normFields ps from rfl,
        objGet_cons_other k0 k _ _ hk0]
      exact ih hrest

lemma normFields_cons_of_ne_undef (k0 : String) (v : JSVal)
    (ps : List (String × JSVal)) (h : v ≠ .undef) :
    normFields ((k0, v) :: ps) = (k0, normVal v) :: normFields ps := by
  cases v with
  | undef => exact absurd rfl h
  | null => rfl
  | bool b => rfl
  | num n => rfl
  | str st => rfl
  | arr xs => rfl
  | obj os => rfl

lemma dropUndef_some_of_ne_undef (v : JSVal) (h : v ≠ .undef) :
    dropUndef (some v) = some (normVal v) := by
  cases v with
  | undef => exact absurd rfl h
  | null => rfl
  | bool b => rfl
  | num n => rfl
  | str st => rfl
  | arr xs => rfl
  | obj os => rfl

lemma objGet_normFields (fs : List (String × JSVal)) (k : String)
    (hkeys : (fs.map Prod.fst).Nodup) :
    objGet (normFields fs) k = dropUndef (objGet fs k) := by
  induction fs with
  | nil => rfl
  | cons p ps ih =>
    rcases p with ⟨k0, v⟩
    rw [List.map_cons, List.nodup_cons] at hkeys
    obtain ⟨hk0, hnd⟩ := hkeys
    have hnotin : ∀ q ∈ ps, q.1 ≠ k0 := by
      intro q hq hq1
      exact hk0 (List.mem_map.mpr ⟨q, hq, hq1⟩)
    by_cases hv : v = .undef
    · subst hv
      by_cases hkk : k0 = k
      · subst hkk
        rw [show normFields ((k0, JSVal.undef) :: ps) = normFields ps from rfl,
          objGet_normFields_not_mem ps k0 hnotin, objGet_cons_self]
        rfl
      · rw [show normFields ((k0, JSVal.undef) :: ps) = normFields ps from rfl,
          objGet_cons_other k0 k _ ps hkk]
        exact ih hnd
    · by_cases hkk : k0 = k
      · subst hkk
        rw [normFields_cons_of_ne_undef _ _ _ hv, objGet_cons_self,
          objGet_cons_self, dropUndef_some_of_ne_undef v hv]
      · rw [normFields_cons_of_ne_undef _ _ _ hv,
          objGet_cons_other k0 k _ _ hkk, objGet_cons_other k0 k _ ps hkk]
        exact ih hnd

end ObjectLemmas

section JsonTableLemmas

variable {α : Type}

/-- With the priority feature on and a valid supplied priority, `create` is a
plain insert. -/
lemma create_provided_eq (cfg : TableConfig) (newId : Nat) (t : List (Row α))
    (sp : Option Int) (payload : α)
    (hfeat : cfg.hasPriority = true) (hp : validSuppliedPriority sp = true) :
    create cfg newId t sp payload = t ++ [⟨newId, sp, none, payload⟩] := by
  simp [create, hfeat, hp]

/-- Fetching a freshly appended row by its id. -/
lemma getById_append_fresh (cfg : TableConfig) (t : List (Row α))
    (row : Row α) (incl : Bool)
    (hfresh : ∀ r ∈ t, r.id < row.id) (hpos : 0 < row.id)
    (hact : row.active = true) :
    getById cfg (t ++ [row]) row.id incl = .ok (some row) := by
  unfold getById
  rw [if_neg (by omega)]
  have hleft1 : t.find? (fun r => decide (r.id = row.id) && r.active) = none := by
    rw [List.find?_eq_none]
    intro x hx
    have hlt := hfresh x hx
    simp only [Bool.and_eq_true, decide_eq_true_eq, not_and]
    intro h
    exact absurd h (by omega)
  have hleft2 : t.find? (fun r => decide (r.id = row.id)) = none := by
    rw [List.find?_eq_none]
    intro x hx
    have hlt := hfresh x hx
    simp only [decide_eq_true_eq]
    omega
  by_cases hc : (cfg.softDelete && !incl) = true
  · rw [if_pos hc, List.find?_append, hleft1]
    simp [hact]
  · rw [if_neg hc, List.find?_append, hleft2]
    simp

end JsonTableLemmas

/-- C7: for a content object with a valid whitelisted type (on a
priority-enabled table), `createWithContent` followed by
`getByIdWithContent` of the created id round-trips the object under
JSON.stringify semantics: `id`/`priority`/`type` are stripped from the blob
and reassembled from their columns (with `id` and `priority` populated), and
every other top-level field reads back as its stringify normalization —
`undefined`-valued fields dropped, `undefined` array elements turned into
`null`. -/
theorem createWithContent_roundtrip (cfg : TableConfig) (wl : List String)
    (newId : Nat) (t : List (Row JPayload)) (c : List (String × JSVal))
    (ty : String)
    (hfeat : cfg.hasPriority = true)
    (hty : objGet c "type" = some (.str ty)) (htyne : ty ≠ "")
    (hwl : wl = [] ∨ ty ∈ wl)
    (hkeys : (c.map Prod.fst).Nodup)
    (hfresh : ∀ r ∈ t, r.id < newId) (hpos : 0 < newId) :
    ∃ (t2 : List (Row JPayload)) (out : List (String × JSVal)) (priOut : Int),
      createWithContent cfg wl newId t c = .ok t2 ∧
      getByIdWithContent cfg t2 newId false = .ok (some out) ∧
      objGet out "id" = some (.num (newId : Int)) ∧
      objGet out "type" = some (.str ty) ∧
      objGet out "priority" = some (.num priOut) ∧
      (∀ k, k ≠ "id" → k ≠ "priority" → k ≠ "type" →
        objGet out k = dropUndef (objGet c k)) := by
  have hstrip : (stripMeta c).map Prod.fst |>.Nodup :=
    hkeys.sublist ((List.filter_sublist c).map Prod.fst)
  have hcre : createWithContent cfg wl newId t c =
      .ok (create cfg newId t
        (match objGet c "priority" with
          | some (.num p) => some p
          | _ => none)
        ⟨ty, encodeJson (.obj (stripMeta c))⟩) := by
    unfold createWithContent
    rw [hty]
    simp only [if_neg htyne]
    rw [if_neg (by
      rintro ⟨hne, hnin⟩
      rcases hwl with h | h
      · exact hne h
      · exact hnin h)]
  set spv : Option Int :=
    (match objGet c "priority" with
      | some (.num p) => some p
      | _ => none) with hspv
  set payload : JPayload := ⟨ty, encodeJson (.obj (stripMeta c))⟩ with hpayload
  have hout : ∀ pri : Int,
      (∀ k, k ≠ "id" → k ≠ "priority" → k ≠ "type" →
        objGet (fromRow ⟨newId, some pri, none, payload⟩) k =
          dropUndef (objGet c k)) ∧
      objGet (fromRow ⟨newId, some pri, none, payload⟩) "id" =
        some (.num (newId : Int)) ∧
      objGet (fromRow ⟨newId, some pri, none, payload⟩) "type" =
        some (.str ty) ∧
      objGet (fromRow ⟨newId, some pri, none, payload⟩) "priority" =
        some (.num pri) := by
    intro pri
    refine ⟨?_, ?_, ?_, ?_⟩
    · intro k hk1 hk2 hk3
      show objGet (objSet (objSet (objSet (normFields (stripMeta c))
        "id" (.num (newId : Int))) "priority" (.num pri)) "type" (.str ty)) k =
          dropUndef (objGet c k)
      rw [objGet_objSet_other _ _ _ _ hk3, objGet_objSet_other _ _ _ _ hk2,
        objGet_objSet_other _ _ _ _ hk1,
        objGet_normFields _ _ hstrip, objGet_stripMeta _ _ hk1 hk2 hk3]
    · show objGet (objSet (objSet (objSet (normFields (stripMeta c))
        "id" (.num (newId : Int))) "priority" (.num pri)) "type" (.str ty))
          "id" = some (.num (newId : Int))
      rw [objGet_objSet_other _ _ _ _ (by decide),
        objGet_objSet_other _ _ _ _ (by decide), objGet_objSet_self]
    · exact objGet_objSet_self _ _ _
    · show objGet (objSet (objSet (objSet (normFields (stripMeta c))
        "id" (.num (newId : Int))) "priority" (.num pri)) "type" (.str ty))
          "priority" = some (.num pri)
      rw [objGet_objSet_other _ _ _ _ (by decide), objGet_objSet_self]
  by_cases hprov : validSuppliedPriority spv = true
  · obtain ⟨p, hsp⟩ : ∃ p : Int, spv = some p := by
      cases hs : spv with
      | none => rw [hs] at hprov; exact absurd hprov (by simp [validSuppliedPriority])
      | some p => exact ⟨p, rfl⟩
    have hc2 := create_provided_eq cfg newId t spv payload hfeat hprov
    refine ⟨_, fromRow ⟨newId, some p, none, payload⟩, p, hcre, ?_, ?_, ?_, ?_, ?_⟩
    · unfold getByIdWithContent
      rw [hc2, hsp]
      rw [getById_append_fresh cfg t ⟨newId, some p, none, payload⟩ false hfresh
        hpos rfl]
    · exact (hout p).2.1
    · exact (hout p).2.2.1
    · exact (hout p).2.2.2
    · exact (hout p).1
  · have hnp : validSuppliedPriority spv = false := by
      cases h : validSuppliedPriority spv
      · rfl
      · exact absurd h hprov
    have hc2 := create_unprovided_eq cfg newId t spv payload hfeat hnp
    rw [List.map_append] at hc2
    have hsingle : ([⟨newId, none, none, payload⟩] : List (Row JPayload)).map
        (fun r => if r.priority = none
          then { r with priority := some (r.id : Int) } else r) =
        [⟨newId, some (newId : Int), none, payload⟩] := by
      simp
    rw [hsingle] at hc2
    refine ⟨_, fromRow ⟨newId, some (newId : Int), none, payload⟩,
      (newId : Int), hcre, ?_, ?_, ?_, ?_, ?_⟩
    · unfold getByIdWithContent
      rw [hc2]
      rw [getById_append_fresh cfg _ ⟨newId, some (newId : Int), none, payload⟩
        false ?_ hpos rfl]
      intro r hr
      obtain ⟨s, hs, rfl⟩ := List.mem_map.mp hr
      have := hfresh s hs
      by_cases h : s.priority = none <;> simp [h] <;> omega
    · exact (hout (newId : Int)).2.1
    · exact (hout (newId : Int)).2.2.1
    · exact (hout (newId : Int)).2.2.2
    · exact (hout (newId : Int)).1

/-- Witness: C7 at a concrete content object carrying an `undefined` field
and an array with an `undefined` element. -/
theorem createWithContent_roundtrip_witness :
    ∃ (t2 : List (Row JPayload)) (out : List (String × JSVal)) (priOut : Int),
      createWithContent ⟨false, true⟩ ["T"] 1 []
        [("type", .str "T"), ("a", .num 7), ("u", .undef),
          ("xs", .arr [.undef, .num 3])] = .ok t2 ∧
      getByIdWithContent ⟨false, true⟩ t2 1 false = .ok (some out) ∧
      objGet out "id" = some (.num 1) ∧
      objGet out "type" = some (.str "T") ∧
      objGet out "priority" = some (.num priOut) ∧
      (∀ k, k ≠ "id" → k ≠ "priority" → k ≠ "type" →
        objGet out k = dropUndef (objGet
          [("type", .str "T"), ("a", .num 7), ("u", .undef),
            ("xs", .arr [.undef, .num 3])] k)) :=
  createWithContent_roundtrip ⟨false, true⟩ ["T"] 1 []
    [("type", .str "T"), ("a", .num 7), ("u", .undef),
      ("xs", .arr [.undef, .num 3])] "T"
    rfl rfl (by decide) (Or.inr (by simp)) (by decide)
    (fun r hr => absurd hr (List.not_mem_nil r)) (by decide)

section MergeLemmas

lemma objGet_shallowMerge_patched (e p : List (String × JSVal)) (k : String)
    (v : JSVal) (h : objGet p k = some v) :
    objGet (shallowMerge e p) k = some v := by
  unfold shallowMerge
  unfold objGet at h ⊢
  rw [List.find?_append]
  have hleft : (e.filter fun q => !(p.any fun r => r.1 == q.1)).find?
      (fun q => q.1 == k) = none := by
    rw [List.find?_eq_none]
    intro q hq
    have hfilt := (List.mem_filter.mp hq).2
    intro hqk
    obtain ⟨pair, hpair⟩ := Option.map_eq_some'.mp h
    have hmem := List.mem_of_find?_eq_some hpair.1
    have hkey := List.find?_some hpair.1
    have : (p.any fun r => r.1 == q.1) = true := by
      rw [List.any_eq_true]
      refine ⟨pair, hmem, ?_⟩
      have h1 : pair.1 = k := by simpa using hkey
      have h2 : q.1 = k := by simpa using hqk
      simp [h1, h2]
    rw [this] at hfilt
    exact absurd hfilt (by simp)
  rw [hleft]
  simpa using h

lemma objGet_shallowMerge_unpatched (e p : List (String × JSVal)) (k : String)
    (h : objGet p k = none) :
    objGet (shallowMerge e p) k = objGet e k := by
  unfold shallowMerge
  induction e with
  | nil =>
    show objGet p k = objGet [] k
    rw [h]
    rfl
  | cons q e2 ih =>
    by_cases hq : (p.any fun r => r.1 == q.1) = true
    · have hq1k : q.1 ≠ k := by
        intro hqk
        obtain ⟨rr, hrr, hrq⟩ := List.any_eq_true.mp hq
        have hreq : rr.1 = q.1 := by simpa using hrq
        have hsome : (p.find? fun s => s.1 == k).isSome := by
          rw [List.find?_isSome]
          exact ⟨rr, hrr, by simp [hreq, hqk]⟩
        unfold objGet at h
        rw [Option.map_eq_none'] at h
        rw [h] at hsome
        exact absurd hsome (by simp)
      rw [List.filter_cons_of_neg]
      · rcases q with ⟨qk, qv⟩
        rw [objGet_cons_other qk k qv e2 hq1k]
        exact ih
      · intro hcon
        rw [hq] at hcon
        simp at hcon
    · have hqf : (p.any fun r => r.1 == q.1) = false := Bool.eq_false_iff.mpr hq
      rw [List.filter_cons_of_pos]
      · rcases q with ⟨qk, qv⟩
        by_cases hqk : qk = k
        · subst hqk
          rw [List.cons_append, objGet_cons_self, objGet_cons_self]
        · rw [List.cons_append, objGet_cons_other qk k _ _ hqk,
            objGet_cons_other qk k _ _ hqk]
          exact ih
      · simp [hqf]

/-- The success path of `updateWithContent` under a pure JSON patch (no
`type`/`priority` fields): the current content is read with
`includeDeleted`, the patch is shallow-merged onto it, re-encoded and
written through the base `update`. -/
lemma updateWithContent_merge_eq (cfg : TableConfig) (wl : List String)
    (t : List (Row JPayload)) (id : Nat) (patch : List (String × JSVal))
    (r : Row JPayload) (fs : List (String × JSVal))
    (hids : (t.map Row.id).Nodup) (hr : r ∈ t) (hrid : r.id = id)
    (hpos : 0 < id) (hcontent : r.payload.content = .obj fs)
    (hnometa : ∀ p ∈ patch, p.1 ≠ "type" ∧ p.1 ≠ "priority")
    (hne : patch ≠ []) :
    updateWithContent cfg wl t id patch =
      .ok (some (fromRow { r with payload := { r.payload with
          content := encodeJson (.obj (shallowMerge fs patch)) } }),
        t.map fun x => if x.id = id then { x with payload := { x.payload with
          content := encodeJson (.obj (shallowMerge fs patch)) } } else x) := by
  have htynone : objGet patch "type" = none := by
    unfold objGet
    rw [List.find?_eq_none.mpr]
    · rfl
    · intro p hp
      simp [(hnometa p hp).1]
  have hprinone : objGet patch "priority" = none := by
    unfold objGet
    rw [List.find?_eq_none.mpr]
    · rfl
    · intro p hp
      simp [(hnometa p hp).2]
  have hfilter : patch.filter
      (fun p => (p.1 != "type") && (p.1 != "priority")) = patch := by
    rw [List.filter_eq_self]
    intro p hp
    simp [(hnometa p hp).1, (hnometa p hp).2]
  have hempty : patch.isEmpty = false := by
    cases patch with
    | nil => exact absurd rfl hne
    | cons a l => rfl
  have hget : getById cfg t id true = .ok (some r) := by
    unfold getById
    rw [if_neg (by omega), if_neg (by simp)]
    rw [find?_id_eq hids hr hrid]
  have hfind : t.find? (fun x => x.id = id) = some r := find?_id_eq hids hr hrid
  unfold updateWithContent
  simp only [htynone, hprinone, hfilter, hempty, hget, hcontent, definedField,
    Bool.false_eq_true, if_false, decodeJsonStored]
  unfold update
  rw [if_neg (by omega), hfind]

end MergeLemmas

/-- C8: `updateWithContent` re-validates a present `type` against a
non-empty whitelist (throwing UnsupportedType when absent from it), and
merges the non-type/priority patch fields onto the stored content by SHALLOW
merge only: a patched top-level key wholly replaces the stored value of that
key, an unpatched key keeps its stored value — nested keys are never
deep-merged. -/
theorem updateWithContent_shallow (cfg : TableConfig) (wl : List String)
    (t : List (Row JPayload)) (id : Nat) (patch : List (String × JSVal)) :
    (∀ s : String, definedField (objGet patch "type") = some (.str s) →
      wl ≠ [] → s ∉ wl →
      updateWithContent cfg wl t id patch = .error .unsupportedType) ∧
    (∀ (r : Row JPayload) (fs : List (String × JSVal)),
      (t.map Row.id).Nodup → r ∈ t → r.id = id → 0 < id →
      r.payload.content = .obj fs →
      (∀ p ∈ patch, p.1 ≠ "type" ∧ p.1 ≠ "priority") → patch ≠ [] →
      ∃ t2, updateWithContent cfg wl t id patch =
        .ok (some (fromRow { r with payload := { r.payload with
          content := encodeJson (.obj (shallowMerge fs patch)) } }), t2)) ∧
    (∀ (e p : List (String × JSVal)) (k : String) (v : JSVal),
      objGet p k = some v → objGet (shallowMerge e p) k = some v) ∧
    (∀ (e p : List (String × JSVal)) (k : String),
      objGet p k = none → objGet (shallowMerge e p) k = objGet e k) := by
  refine ⟨?_, ?_, objGet_shallowMerge_patched, objGet_shallowMerge_unpatched⟩
  · intro s hs hwl hnin
    unfold updateWithContent
    rw [hs]
    simp only
    rw [if_pos ⟨hwl, hnin⟩]
  · intro r fs hids hr hrid hpos hcontent hnometa hne
    exact ⟨_, updateWithContent_merge_eq cfg wl t id patch r fs hids hr hrid
      hpos hcontent hnometa hne⟩

/-- Witness: C8 at a one-row table — a type outside the whitelist is
rejected; a nested-object patch replaces the whole top-level key. -/
theorem updateWithContent_shallow_witness :
    updateWithContent ⟨false, true⟩ ["T"]
      [⟨1, some 1, none, ⟨"T", .obj [("a", .obj [("x", .num 1)])]⟩⟩] 1
      [("type", .str "Z")] = .error .unsupportedType ∧
    (∃ t2, updateWithContent ⟨false, true⟩ ["T"]
      [⟨1, some 1, none, ⟨"T", .obj [("a", .obj [("x", .num 1)])]⟩⟩] 1
      [("a", .obj [("y", .num 2)])] =
      .ok (some (fromRow ⟨1, some 1, none, ⟨"T", encodeJson (.obj (shallowMerge
        [("a", .obj [("x", .num 1)])] [("a", .obj [("y", .num 2)])]))⟩⟩), t2)) ∧
    objGet (shallowMerge [("a", .obj [("x", .num 1)])]
      [("a", .obj [("y", .num 2)])]) "a" = some (.obj [("y", .num 2)]) :=
  ⟨(updateWithContent_shallow ⟨false, true⟩ ["T"] _ 1 [("type", .str "Z")]).1
      "Z" rfl (by simp) (by simp),
   (updateWithContent_shallow ⟨false, true⟩ ["T"] _ 1
      [("a", .obj [("y", .num 2)])]).2.1
      ⟨1, some 1, none, ⟨"T", .obj [("a", .obj [("x", .num 1)])]⟩⟩
      [("a", .obj [("x", .num 1)])] (by simp) (by simp) rfl (by decide) rfl
      (by intro p hp; simp at hp; subst hp; exact ⟨by decide, by decide⟩)
      (by simp),
   (updateWithContent_shallow ⟨false, true⟩ ["T"] [] 1
      [("a", .obj [("y", .num 2)])]).2.2.1
      [("a", .obj [("x", .num 1)])] [("a", .obj [("y", .num 2)])] "a"
      (.obj [("y", .num 2)]) rfl⟩

/-- C10: `update` applies no `deleted_at` filter, so a soft-deleted row is
still modified and returned (not an absent result); and `updateWithContent`
reads the current content with `includeDeleted`, so a pure JSON patch to a
soft-deleted row succeeds and merges against that row's stored content, even
though default `getById` hides the row. -/
theorem update_touches_soft_deleted {α : Type} (t : List (Row α)) (id : Nat)
    (upd : Row α → Row α) (r : Row α) (d : Int) (cfg : TableConfig)
    (wl : List String) (tj : List (Row JPayload)) (rj : Row JPayload)
    (fsj patch : List (String × JSVal)) (dj : Int) :
    ((t.map Row.id).Nodup → r ∈ t → r.id = id → 0 < id →
      r.deletedAt = some d →
      ∃ t2, update t id upd = .ok (some (upd r), t2) ∧ upd r ∈ t2) ∧
    ((tj.map Row.id).Nodup → rj ∈ tj → rj.id = id → 0 < id →
      rj.deletedAt = some dj → rj.payload.content = .obj fsj →
      (∀ p ∈ patch, p.1 ≠ "type" ∧ p.1 ≠ "priority") → patch ≠ [] →
      cfg.softDelete = true →
      getById cfg tj id false = .ok none ∧
      ∃ t2, updateWithContent cfg wl tj id patch =
        .ok (some (fromRow { rj with payload := { rj.payload with
          content := encodeJson (.obj (shallowMerge fsj patch)) } }), t2)) := by
  constructor
  · intro hids hr hrid hpos _hdel
    unfold update
    rw [if_neg (by omega), find?_id_eq hids hr hrid]
    refine ⟨_, rfl, ?_⟩
    have heq : (fun x : Row α => if x.id = id then upd x else x) r = upd r := by
      simp [hrid]
    rw [← heq]
    exact List.mem_map_of_mem _ hr
  · intro hids hr hrid hpos hdel hcontent hnometa hne hsd
    constructor
    · unfold getById
      rw [if_neg (by omega), if_pos (by rw [hsd]; rfl)]
      have : tj.find? (fun x => decide (x.id = id) && x.active) = none := by
        rw [List.find?_eq_none]
        intro x hx
        by_cases hxid : x.id = id
        · have hxr : x = rj := id_inj hids x hx rj hr (by rw [hxid, hrid])
          subst hxr
          simp [Row.active, hdel]
        · simp [hxid]
      rw [this]
    · exact ⟨_, updateWithContent_merge_eq cfg wl tj id patch rj fsj hids hr
        hrid hpos hcontent hnometa hne⟩

/-- Witness: C10 at a one-row table whose row is soft-deleted. -/
theorem update_touches_soft_deleted_witness :
    (∃ t2, update ([⟨1, none, some 9, ()⟩] : List (Row Unit)) 1
        (fun x => { x with deletedAt := x.deletedAt }) =
      .ok (some ⟨1, none, some 9, ()⟩, t2) ∧
      (⟨1, none, some 9, ()⟩ : Row Unit) ∈ t2) ∧
    (getById ⟨true, false⟩
        ([⟨1, some 1, some 9, ⟨"T", .obj [("a", .num 1)]⟩⟩] :
          List (Row JPayload)) 1 false =
      .ok none ∧
    ∃ t2, updateWithContent ⟨true, false⟩ []
        [⟨1, some 1, some 9, ⟨"T", .obj [("a", .num 1)]⟩⟩] 1
        [("b", .num 2)] =
      .ok (some (fromRow ⟨1, some 1, some 9, ⟨"T", encodeJson (.obj
        (shallowMerge [("a", .num 1)] [("b", .num 2)]))⟩⟩), t2)) :=
  ⟨(update_touches_soft_deleted [⟨1, none, some 9, ()⟩] 1
      (fun x => { x with deletedAt := x.deletedAt }) ⟨1, none, some 9, ()⟩ 9
      ⟨true, false⟩ [] [] ⟨1, none, some 9, ⟨"T", .null⟩⟩ [] [] 0).1
      (by decide) (by decide) rfl (by decide) rfl,
   (update_touches_soft_deleted ([] : List (Row Unit)) 1 (fun x => x)
      ⟨1, none, none, ()⟩ 0 ⟨true, false⟩ []
      [⟨1, some 1, some 9, ⟨"T", .obj [("a", .num 1)]⟩⟩]
      ⟨1, some 1, some 9, ⟨"T", .obj [("a", .num 1)]⟩⟩
      [("a", .num 1)] [("b", .num 2)] 9).2
      (by simp) (by simp) rfl (by decide) rfl rfl
      (by intro p hp; simp at hp; subst hp; exact ⟨by decide, by decide⟩)
      (by simp) rfl⟩

end NextCrud
